import Mathlib

/-!
Verification development for the gemini-balance-edge credential scheduler.

The definitions below are shallow embeddings of the JavaScript sources:
  - `src/key_manager_config` values (KEY_MANAGER_CONFIG / getConfig from
    test_key_manager.js; the serviceUnavailable sub-table of the missing
    key_manager_config.js file is modelled from the repository docs),
  - the KeyManager of src/utils.js (SWRR selection, weight dynamics,
    health transitions, global reset),
  - the priority-queue KeyManager variant bundled with deno_index.ts,
  - RetryHandler.shouldRetry of src/retry_handler.js,
  - the credential-resolution part of handleRequest in src/handle_request.js.

JavaScript numbers are modelled as rationals; timestamps (Date.now()) are
passed explicitly as rational parameters.
-/

namespace GBE

/-! ## Configuration (KEY_MANAGER_CONFIG and getConfig, test_key_manager.js) -/

/-- recovery.minWeight -/
def minWeight : ℚ := mkRat 1 10

/-- recovery.recoveryRate -/
def recoveryRate : ℚ := mkRat 1 10

/-- recovery.recoveryInterval (milliseconds) -/
def recoveryInterval : ℚ := 60000

/-- recovery.maxRecoveryAttempts -/
def maxRecoveryAttempts : Nat := 10

/-- recovery.healthThreshold -/
def healthThreshold : ℚ := mkRat 1 2

/-- errorPenalties lookup with the JS fallback
`config.errorPenalties[errorCode] || config.errorPenalties.default`. -/
def errorPenalties (errorCode : Nat) : ℚ :=
  if errorCode = 429 then mkRat 1 2
  else if errorCode = 503 then mkRat 3 10
  else if errorCode = 500 then mkRat 7 10
  else if errorCode = 502 then mkRat 6 10
  else if errorCode = 504 then mkRat 6 10
  else if errorCode = 401 then mkRat 1 10
  else if errorCode = 403 then mkRat 1 10
  else mkRat 8 10

/-- retry.maxAttempts of the generic retry table. -/
def retryMaxAttempts : Nat := 3

/-- Modelled from the spec: the serviceUnavailable sub-table of
key_manager_config.js is absent from src (only its documentation survives);
the docs give maxRetries = 3 for the 503 class. -/
def serviceUnavailableMaxRetries : Nat := 3

/-! ## JS helpers -/

/-- Whitespace test used by trim and parseInt. -/
def jsWS (c : Char) : Bool :=
  c = ' ' || c = '\t' || c = '\n' || c = '\r'

/-- Worker for jsSplit: current accumulated chunk (reversed) and rest. -/
def jsSplitGo (sep : Char) : List Char → List Char → List String
  | [], acc => [String.mk acc.reverse]
  | c :: rest, acc =>
      if c = sep then String.mk acc.reverse :: jsSplitGo sep rest []
      else jsSplitGo sep rest (c :: acc)

/-- JS String.prototype.split with a one-character separator. -/
def jsSplit (sep : Char) (s : String) : List String :=
  jsSplitGo sep s.toList []

/-- JS String.prototype.trim. -/
def jsTrim (s : String) : String :=
  String.mk (((s.toList.dropWhile jsWS).reverse.dropWhile jsWS).reverse)

/-- JS parseInt(s, 10): skip leading whitespace, optional sign, then the
maximal decimal-digit run; none models NaN (no digits found). -/
def jsParseInt (s : String) : Option Int :=
  let cs := s.toList.dropWhile jsWS
  let signAndRest : Int × List Char :=
    match cs with
    | '-' :: rest => (-1, rest)
    | '+' :: rest => (1, rest)
    | rest => (1, rest)
  let digits := signAndRest.2.takeWhile Char.isDigit
  if digits.isEmpty then none
  else some (signAndRest.1 * (digits.foldl (fun acc c => acc * 10 + (c.toNat - '0'.toNat)) 0 : Nat))

/-! ## KeyManager of src/utils.js -/

/-- One record of KeyManager state (the object literal built in _parseKeys). -/
structure KeyRec where
  key : String
  originalWeight : ℚ
  currentWeight : ℚ
  dynamicWeight : ℚ
  healthy : Bool
  lastChecked : ℚ
  errorCount : Nat
  recoveryAttempts : Nat
  lastErrorCode : Option Nat
  lastRecoveryAttempt : ℚ
deriving Repr, DecidableEq

/-- KeyManager.state (utils.js initState). -/
structure KMState where
  keys : List KeyRec
  currentIndex : Nat
  totalResetCount : Nat
  lastGlobalReset : ℚ
deriving Repr, DecidableEq

/-- _parseKeys of utils.js: split on comma, each item is key or key:weight,
non-numeric weight defaults to 1.  now stands for Date.now(). -/
def parseKeys (keysString : String) (now : ℚ) : List KeyRec :=
  if keysString = "" then []
  else
    (jsSplit ',' keysString).map (fun item =>
      let parts := jsSplit ':' (jsTrim item)
      let key := parts.headD ""
      let normalizedWeight : ℚ :=
        if parts.length > 1 then
          match jsParseInt (parts.getD 1 "") with
          | some w => (w : ℚ)
          | none => 1
        else 1
      { key := key
        originalWeight := normalizedWeight
        currentWeight := 0
        dynamicWeight := normalizedWeight
        healthy := true
        lastChecked := now
        errorCount := 0
        recoveryAttempts := 0
        lastErrorCode := none
        lastRecoveryAttempt := now })

/-- initState of utils.js, specialised to a keysString parsed at time now. -/
def initState (keysString : String) (now : ℚ) : KMState :=
  { keys := parseKeys keysString now
    currentIndex := 0
    totalResetCount := 0
    lastGlobalReset := now }

/-- The per-record body of _attemptWeightRecovery. -/
def recoveryStepRec (now : ℚ) (k : KeyRec) : KeyRec :=
  if k.dynamicWeight < k.originalWeight ∧
     recoveryInterval ≤ now - k.lastRecoveryAttempt ∧
     k.recoveryAttempts < maxRecoveryAttempts then
    let newDyn := min (k.dynamicWeight + k.originalWeight * recoveryRate) k.originalWeight
    let k := { k with dynamicWeight := newDyn,
                      lastRecoveryAttempt := now,
                      recoveryAttempts := k.recoveryAttempts + 1 }
    if k.originalWeight * healthThreshold ≤ k.dynamicWeight then
      { k with healthy := true }
    else k
  else k

/-- _attemptWeightRecovery of utils.js. -/
def attemptWeightRecovery (now : ℚ) (keys : List KeyRec) : List KeyRec :=
  keys.map (recoveryStepRec now)

/-- _resetAllKeys of utils.js. -/
def resetAllKeys (now : ℚ) (s : KMState) : KMState :=
  { s with
    keys := s.keys.map (fun k =>
      { k with healthy := true
               dynamicWeight := k.originalWeight
               currentWeight := 0
               errorCount := 0
               recoveryAttempts := 0
               lastRecoveryAttempt := now })
    totalResetCount := s.totalResetCount + 1
    lastGlobalReset := now }

/-- The availability filter of selectKey:
k.healthy || k.dynamicWeight >= config.recovery.minWeight. -/
def eligibleB (k : KeyRec) : Bool :=
  k.healthy || decide (minWeight ≤ k.dynamicWeight)

/-- currentWeight += dynamicWeight, the in-loop update of _selectFromAvailable. -/
def bumpCW (k : KeyRec) : KeyRec :=
  { k with currentWeight := k.currentWeight + k.dynamicWeight }

/-- The selection scan of _selectFromAvailable: selected is replaced exactly
when the (already bumped) currentWeight is strictly greater.  Arguments: the
remaining records, the index of the head of that list, and the best
(index, currentWeight) so far. -/
def pickAux : List KeyRec → Nat → Nat × ℚ → Nat × ℚ
  | [], _, best => best
  | k :: rest, i, best =>
      pickAux rest (i + 1) (if best.2 < k.currentWeight then (i, k.currentWeight) else best)

/-- Write-back of mutations done through a filtered alias array: the j-th
record satisfying p is replaced by f j applied to it. -/
def updFiltered (p : KeyRec → Bool) (f : Nat → KeyRec → KeyRec) :
    List KeyRec → Nat → List KeyRec
  | [], _ => []
  | k :: rest, j =>
      if p k then f j k :: updFiltered p f rest (j + 1)
      else k :: updFiltered p f rest j

/-- _selectFromAvailable of utils.js.  In the source the argument is an array
aliasing a subset of state.keys; here the subset is given by the predicate p
and the mutations are written back into the full key list. -/
def selectFromAvailable (p : KeyRec → Bool) (s : KMState) : Option String × KMState :=
  let sub := s.keys.filter p
  match sub with
  | [] => (none, s)
  | k0 :: _ =>
    let totalWeight := sub.foldl (fun acc k => acc + k.dynamicWeight) 0
    if totalWeight ≤ 0 then (some k0.key, s)
    else
      let sub1 := sub.map bumpCW
      let best := pickAux sub1.tail 1 (0, (bumpCW k0).currentWeight)
      let i := best.1
      let newKeys := updFiltered p
        (fun j k =>
          let k1 := bumpCW k
          if j = i then { k1 with currentWeight := k1.currentWeight - totalWeight } else k1)
        s.keys 0
      ((sub1.get? i).map (·.key), { s with keys := newKeys })

/-- selectKey of utils.js. -/
def selectKey (now : ℚ) (s : KMState) : Option String × KMState :=
  let s := { s with keys := attemptWeightRecovery now s.keys }
  let available := s.keys.filter eligibleB
  if available.isEmpty then
    let s := resetAllKeys now s
    selectFromAvailable (fun _ => true) s
  else
    let healthyL := available.filter (·.healthy)
    if healthyL.isEmpty then
      selectFromAvailable eligibleB s
    else
      selectFromAvailable (fun k => eligibleB k && k.healthy) s

/-- The mutation handleKeyError performs on the record it finds. -/
def handleKeyErrorRec (errorCode : Nat) (now : ℚ) (k : KeyRec) : KeyRec :=
  let k := { k with errorCount := k.errorCount + 1,
                    lastErrorCode := some errorCode,
                    lastChecked := now }
  let penalty := errorPenalties errorCode
  let newWeight := max (k.dynamicWeight * penalty) minWeight
  let k := { k with dynamicWeight := newWeight }
  if errorCode = 401 ∨ errorCode = 403 then { k with healthy := false }
  else if k.dynamicWeight ≤ minWeight then { k with healthy := false }
  else k

/-- Array.prototype.find followed by in-place mutation: update the first
record whose key equals apiKey, leave the rest unchanged. -/
def updateFirst (apiKey : String) (f : KeyRec → KeyRec) : List KeyRec → List KeyRec
  | [] => []
  | k :: rest => if k.key = apiKey then f k :: rest else k :: updateFirst apiKey f rest

/-- handleKeyError of utils.js (no-op when the key is absent). -/
def handleKeyError (apiKey : String) (errorCode : Nat) (now : ℚ) (s : KMState) : KMState :=
  { s with keys := updateFirst apiKey (handleKeyErrorRec errorCode now) s.keys }

/-- markAsUnhealthy of utils.js: delegates to handleKeyError with code 500. -/
def markAsUnhealthy (apiKey : String) (now : ℚ) (s : KMState) : KMState :=
  handleKeyError apiKey 500 now s

/-- recoverKey of utils.js: force the record fully healthy. -/
def recoverKey (apiKey : String) (now : ℚ) (s : KMState) : KMState :=
  { s with keys := updateFirst apiKey (fun k =>
      { k with healthy := true
               dynamicWeight := k.originalWeight
               errorCount := 0
               recoveryAttempts := 0
               lastRecoveryAttempt := now }) s.keys }

/-- Array.prototype.find on the key field. -/
def findRec (keys : List KeyRec) (apiKey : String) : Option KeyRec :=
  keys.find? (fun k => k.key = apiKey)

/-! ## The priority-queue KeyManager variant bundled with deno_index.ts

Records additionally carry the temporary-unhealthy sub-state, and the state
carries the priority-queue bookkeeping.  Queue entries alias records in the
source but only their key field is ever read, so queues are lists of keys. -/

/-- JS Math.round: round half toward positive infinity. -/
def jsRound (q : ℚ) : Int := Int.floor (q + mkRat 1 2)

/-- Quantized priority: Math.max(1, Math.round(weight * 10)). -/
def quantPriority (weight : ℚ) : Int := max 1 (jsRound (weight * 10))

/-- One record of the deno KeyManager variant. -/
structure DKeyRec where
  key : String
  originalWeight : ℚ
  currentWeight : ℚ
  dynamicWeight : ℚ
  healthy : Bool
  lastChecked : ℚ
  errorCount : Nat
  recoveryAttempts : Nat
  lastErrorCode : Option Nat
  lastErrorAt : Option ℚ
  lastRecoveryAttempt : ℚ
  temporaryUnhealthy : Bool
  temporaryUnhealthyUntil : Option ℚ
deriving Repr, DecidableEq

/-- State of the deno KeyManager variant (initState). -/
structure DState where
  keys : List DKeyRec
  totalResetCount : Nat
  lastGlobalReset : ℚ
  priorityQueues : Option (List (Int × List String))
  priorityList : List Int
  currentPriorityIndex : Nat
  currentQueueIndex : Nat
  lastSelectedKey : Option String
deriving Repr, DecidableEq

/-- _parseKeys of the deno variant: like utils.js but trims the key part and
drops entries with an empty key. -/
def parseKeysD (keysString : String) (now : ℚ) : List DKeyRec :=
  if keysString = "" then []
  else
    let parsed : List DKeyRec := (jsSplit ',' keysString).map (fun item =>
      let parts := jsSplit ':' (jsTrim item)
      let key := jsTrim (parts.headD "")
      let normalizedWeight : ℚ :=
        if parts.length > 1 then
          match jsParseInt (parts.getD 1 "") with
          | some w => (w : ℚ)
          | none => 1
        else 1
      { key := key
        originalWeight := normalizedWeight
        currentWeight := 0
        dynamicWeight := normalizedWeight
        healthy := true
        lastChecked := now
        errorCount := 0
        recoveryAttempts := 0
        lastErrorCode := none
        lastErrorAt := none
        lastRecoveryAttempt := now
        temporaryUnhealthy := false
        temporaryUnhealthyUntil := none })
    parsed.filter (fun k => ¬ k.key = "" && 0 < k.key.length)

/-- initState of the deno variant. -/
def initStateD (keysString : String) (now : ℚ) : DState :=
  { keys := parseKeysD keysString now
    totalResetCount := 0
    lastGlobalReset := now
    priorityQueues := none
    priorityList := []
    currentPriorityIndex := 0
    currentQueueIndex := 0
    lastSelectedKey := none }

/-- Per-record body of _attemptWeightRecovery (same arithmetic as utils.js). -/
def recoveryStepRecD (now : ℚ) (k : DKeyRec) : DKeyRec :=
  if k.dynamicWeight < k.originalWeight ∧
     recoveryInterval ≤ now - k.lastRecoveryAttempt ∧
     k.recoveryAttempts < maxRecoveryAttempts then
    let newDyn := min (k.dynamicWeight + k.originalWeight * recoveryRate) k.originalWeight
    let k := { k with dynamicWeight := newDyn,
                      lastRecoveryAttempt := now,
                      recoveryAttempts := k.recoveryAttempts + 1 }
    if k.originalWeight * healthThreshold ≤ k.dynamicWeight then
      { k with healthy := true }
    else k
  else k

/-- _checkTemporaryRecovery: clear expired time-boxed penalties. -/
def checkTemporaryRecovery (now : ℚ) (keys : List DKeyRec) : List DKeyRec :=
  keys.map (fun k =>
    match k.temporaryUnhealthyUntil with
    | some untilT =>
        if k.temporaryUnhealthy ∧ ¬ untilT = 0 ∧ untilT ≤ now then
          { k with healthy := true, temporaryUnhealthy := false, temporaryUnhealthyUntil := none }
        else k
    | none => k)

/-- _resetAllKeys of the deno variant (also clears the queue state). -/
def resetAllKeysD (now : ℚ) (s : DState) : DState :=
  { s with
    keys := s.keys.map (fun k =>
      { k with healthy := true
               dynamicWeight := k.originalWeight
               currentWeight := 0
               errorCount := 0
               recoveryAttempts := 0
               lastRecoveryAttempt := now })
    priorityQueues := none
    priorityList := []
    currentPriorityIndex := 0
    currentQueueIndex := 0
    lastSelectedKey := none
    totalResetCount := s.totalResetCount + 1
    lastGlobalReset := now }

/-- Eligibility filter of the deno selectKey (same as utils.js). -/
def eligibleD (k : DKeyRec) : Bool :=
  k.healthy || decide (minWeight ≤ k.dynamicWeight)

/-- Duplicate removal keeping first occurrences (JS Set insertion order). -/
def dedupKeepFirst : List Int → List Int
  | [] => []
  | x :: rest => x :: (dedupKeepFirst rest).filter (fun y => ¬ y = x)

/-- Descending insertion of one element. -/
def insertDesc (x : Int) : List Int → List Int
  | [] => [x]
  | y :: rest => if y ≤ x then x :: y :: rest else y :: insertDesc x rest

/-- Descending insertion sort. -/
def sortDesc (l : List Int) : List Int := l.foldr insertDesc []

/-- _rebuildPriorityQueues: recompute the descending unique priority list of
the passed subset; rebuild queues only when that list changed.  The JS code
collects the unique priorities in a Set and sorts them descending; since the
sorted output of a duplicate-free list is uniquely determined, dedup
followed by a descending insertion sort is an exact model. -/
def rebuildPriorityQueues (sub : List DKeyRec) (s : DState) : DState :=
  let newPriorityList :=
    sortDesc (dedupKeepFirst (sub.map (fun k => quantPriority k.dynamicWeight)))
  if newPriorityList = s.priorityList then s
  else
    let queues := newPriorityList.map (fun p =>
      (p, (sub.filter (fun k => quantPriority k.dynamicWeight = p)).map (·.key)))
    { s with priorityQueues := some queues
             priorityList := newPriorityList
             currentPriorityIndex := 0
             currentQueueIndex := 0 }

/-- Assoc-list lookup standing for priorityQueues.get. -/
def pqGet (queues : List (Int × List String)) (p : Int) : Option (List String) :=
  (queues.find? (fun e => e.1 = p)).map (·.2)

/-- Assoc-list update standing for mutation of the queue stored in the map. -/
def pqSet (queues : List (Int × List String)) (p : Int) (q : List String) :
    List (Int × List String) :=
  queues.map (fun e => if e.1 = p then (p, q) else e)

/-- The scan loop of _selectFromPriorityQueue; i counts the buckets tried. -/
def pqLoop (s : DState) (queues : List (Int × List String)) (priorities : List Int)
    (priIndex queueIndex : Nat) : Nat → Option (String × DState)
  | 0 => none
  | fuel + 1 =>
    let i := priorities.length - (fuel + 1)
    let currentPriIndex := (priIndex + i) % priorities.length
    let priority := priorities.getD currentPriIndex 0
    match pqGet queues priority with
    | none => pqLoop s queues priorities priIndex queueIndex fuel
    | some queue =>
      if queue.isEmpty then pqLoop s queues priorities priIndex queueIndex fuel
      else if queue.length = 1 ∧ some (queue.headD "") = s.lastSelectedKey then
        pqLoop s queues priorities priIndex queueIndex fuel
      else
        let selectedKey := queue.getD (queueIndex % queue.length) ""
        let queue1 := if 1 < queue.length then queue.tail ++ [queue.headD ""] else queue
        some (selectedKey,
          { s with priorityQueues := some (pqSet queues priority queue1)
                   currentPriorityIndex := currentPriIndex
                   currentQueueIndex := (queueIndex + 1) % queue.length
                   lastSelectedKey := some selectedKey })

/-- _selectFromPriorityQueue of the deno variant. -/
def selectFromPriorityQueue (s : DState) : Option String × DState :=
  match s.priorityQueues with
  | none => (none, s)
  | some queues =>
    let priorities := s.priorityList
    if priorities.isEmpty then (none, s)
    else
      match pqLoop s queues priorities s.currentPriorityIndex s.currentQueueIndex
              priorities.length with
      | some (k, s1) => (some k, s1)
      | none =>
        -- all buckets are singletons equal to the last selection: allow the repeat
        let firstPriority := priorities.headD 0
        match pqGet queues firstPriority with
        | some queue =>
          if queue.isEmpty then (none, s)
          else
            let selectedKey := queue.getD (s.currentQueueIndex % queue.length) ""
            (some selectedKey,
              { s with currentPriorityIndex := 0
                       currentQueueIndex := (s.currentQueueIndex + 1) % queue.length
                       lastSelectedKey := some selectedKey })
        | none => (none, s)

/-- _selectFromAvailable of the deno variant: lazily initialise the queue
state, rebuild on priority-set change, then select. -/
def selectFromAvailableD (sub : List DKeyRec) (s : DState) : Option String × DState :=
  if sub.isEmpty then (none, s)
  else
    let s := if s.priorityQueues = none then
               { s with priorityQueues := some [], priorityList := [],
                        currentPriorityIndex := 0, currentQueueIndex := 0,
                        lastSelectedKey := s.lastSelectedKey }
             else s
    let s := rebuildPriorityQueues sub s
    selectFromPriorityQueue s

/-- selectKey of the deno variant. -/
def selectKeyD (now : ℚ) (s : DState) : Option String × DState :=
  if s.keys.isEmpty then (none, s)
  else
    let s := { s with keys := checkTemporaryRecovery now
                        (s.keys.map (recoveryStepRecD now)) }
    let available := s.keys.filter eligibleD
    if available.isEmpty then
      let s := resetAllKeysD now s
      selectFromAvailableD s.keys s
    else
      let healthyL := available.filter (·.healthy)
      if healthyL.isEmpty then selectFromAvailableD available s
      else selectFromAvailableD healthyL s

/-- _updateKeyHealthStatus of the deno variant. -/
def updateKeyHealthStatus (errorCode : Nat) (now : ℚ) (k : DKeyRec) : DKeyRec :=
  if errorCode = 401 ∨ errorCode = 403 then { k with healthy := false }
  else if errorCode = 503 then
    { k with healthy := false,
             temporaryUnhealthy := true,
             temporaryUnhealthyUntil := some (now + 60000) }
  else if k.dynamicWeight ≤ minWeight then { k with healthy := false }
  else k

/-- The mutation handleKeyError of the deno variant performs on the record it
finds: bookkeeping, weight penalty, then _updateKeyHealthStatus. -/
def handleKeyErrorRecD (errorCode : Nat) (now : ℚ) (k : DKeyRec) : DKeyRec :=
  let k := { k with errorCount := k.errorCount + 1,
                    lastErrorCode := some errorCode,
                    lastChecked := now,
                    lastErrorAt := some now }
  let penalty := errorPenalties errorCode
  let newWeight := max (k.dynamicWeight * penalty) minWeight
  let k := { k with dynamicWeight := newWeight }
  updateKeyHealthStatus errorCode now k

/-- Update of the first record whose key matches (Array.prototype.find). -/
def updateFirstD (apiKey : String) (f : DKeyRec → DKeyRec) : List DKeyRec → List DKeyRec
  | [] => []
  | k :: rest => if k.key = apiKey then f k :: rest else k :: updateFirstD apiKey f rest

/-- handleKeyError of the deno variant (no-op when the key is absent). -/
def handleKeyErrorD (apiKey : String) (errorCode : Nat) (now : ℚ) (s : DState) : DState :=
  { s with keys := updateFirstD apiKey (handleKeyErrorRecD errorCode now) s.keys }

/-- find on the deno record list. -/
def findRecD (keys : List DKeyRec) (apiKey : String) : Option DKeyRec :=
  keys.find? (fun k => k.key = apiKey)

/-! ## Credential resolution of handleRequest (src/handle_request.js)

The phase from reading the auth headers to either having a selected key or
answering with the synthesized "No available API keys." response. -/

/-- Outcome of the credential-resolution phase: either the pipeline continues
with a selected key, or handleRequest returns the synthesized error
response. -/
inductive AuthOutcome where
  | proxied (selectedKey : String)
  | noKeys
deriving Repr, DecidableEq

/-- HTTP status of the synthesized "No available API keys." response. -/
def noKeysStatus : Nat := 500

/-- authHeader?.split(" ")[1] : undefined when missing or no second part. -/
def headerToken (authHeader : Option String) : Option String :=
  authHeader.bind (fun h => (jsSplit ' ' h).get? 1)

/-- JS a || b on possibly-undefined strings (empty string is falsy). -/
def jsOrS (a b : Option String) : Option String :=
  match a with
  | some s => if s = "" then b else a
  | none => b

/-- JS truthiness of a selectKey result (null or empty string is falsy). -/
def truthyKey (r : Option String) : Option String :=
  match r with
  | some k => if k = "" then none else some k
  | none => none

/-- Credential resolution and key selection of handleRequest: compare the
presented tokens with AUTH_TOKEN; on a match keep selectedKey empty so the
server pool is consulted, otherwise select from an ephemeral pool built
from the client token (possibly empty), falling back to the server pool;
with no key at all, answer the synthesized 500 response. -/
def resolveAndSelect (authHeader xGoogKey : Option String) (serverAuthToken : String)
    (serverState : KMState) (now : ℚ) : AuthOutcome × KMState :=
  let clientApiKeyOpenAI := headerToken authHeader
  let clientApiKeyGemini := xGoogKey
  if ¬ serverAuthToken = "" ∧
     (clientApiKeyOpenAI = some serverAuthToken ∨ clientApiKeyGemini = some serverAuthToken) then
    let r := selectKey now serverState
    match truthyKey r.1 with
    | some k => (.proxied k, r.2)
    | none => (.noKeys, r.2)
  else
    let clientTokenStr := (jsOrS clientApiKeyOpenAI clientApiKeyGemini).getD ""
    let eph := initState clientTokenStr now
    match truthyKey (selectKey now eph).1 with
    | some k => (.proxied k, serverState)
    | none =>
      let r := selectKey now serverState
      match truthyKey r.1 with
      | some k => (.proxied k, r.2)
      | none => (.noKeys, r.2)

/-- The post-fetch scheduler feedback of handleRequest: on upstream status
401 or 403 the selected key is reported through markAsUnhealthy; all other
statuses leave the pool untouched. -/
def upstreamFeedback (status : Nat) (selectedKey : String) (now : ℚ) (s : KMState) : KMState :=
  if status = 401 ∨ status = 403 then markAsUnhealthy selectedKey now s else s

/-! ## RetryHandler.shouldRetry of src/retry_handler.js -/

/-- The effective bound `config.maxRetries || config.maxAttempts` for the
table chosen by shouldRetry.  The serviceUnavailable table carries
maxRetries, the generic retry table carries maxAttempts. -/
def retryBound (errorCode : Nat) : Nat :=
  if errorCode = 503 then serviceUnavailableMaxRetries else retryMaxAttempts

/-- shouldRetry of retry_handler.js. -/
def shouldRetry (errorCode : Nat) (attempt : Nat) : Bool :=
  let maxAttempts := retryBound errorCode
  if errorCode = 503 ∨ errorCode = 429 then decide (attempt ≤ maxAttempts)
  else decide (errorCode = 500 ∨ errorCode = 502 ∨ errorCode = 504) &&
       decide (attempt ≤ maxAttempts)

/-! ## General lemmas about the embedding -/

theorem findRec_updateFirst (apiKey : String) (f : KeyRec → KeyRec)
    (hf : ∀ x, (f x).key = x.key) :
    ∀ l : List KeyRec, findRec (updateFirst apiKey f l) apiKey = (findRec l apiKey).map f := by
  intro l
  induction l with
  | nil => rfl
  | cons k rest ih =>
      by_cases hk : k.key = apiKey
      · simp [updateFirst, findRec, hk, hf]
      · simp only [updateFirst, if_neg hk]
        simpa [findRec, hk] using ih

theorem handleKeyErrorRec_key (errorCode : Nat) (now : ℚ) (k : KeyRec) :
    (handleKeyErrorRec errorCode now k).key = k.key := by
  unfold handleKeyErrorRec
  dsimp only
  split
  · rfl
  · split <;> rfl

theorem handleKeyErrorRec_dyn (errorCode : Nat) (now : ℚ) (k : KeyRec) :
    (handleKeyErrorRec errorCode now k).dynamicWeight =
      max (k.dynamicWeight * errorPenalties errorCode) minWeight := by
  unfold handleKeyErrorRec
  dsimp only
  split
  · rfl
  · split <;> rfl

theorem handleKeyErrorRec_orig (errorCode : Nat) (now : ℚ) (k : KeyRec) :
    (handleKeyErrorRec errorCode now k).originalWeight = k.originalWeight := by
  unfold handleKeyErrorRec
  dsimp only
  split
  · rfl
  · split <;> rfl

theorem errorPenalties_pos (errorCode : Nat) : 0 < errorPenalties errorCode := by
  unfold errorPenalties
  split <;> norm_num
  split <;> norm_num
  split <;> norm_num
  split <;> norm_num
  split <;> norm_num
  split <;> norm_num
  split <;> norm_num

theorem errorPenalties_le_one (errorCode : Nat) : errorPenalties errorCode ≤ 1 := by
  unfold errorPenalties
  split <;> norm_num
  split <;> norm_num
  split <;> norm_num
  split <;> norm_num
  split <;> norm_num
  split <;> norm_num
  split <;> norm_num

theorem minWeight_pos : 0 < minWeight := by norm_num [minWeight]

/-! ## Claim theorems -/

/-- C9: shouldRetry answers true for 503 and for 429 exactly while the
attempt count is within the bound of the serviceUnavailable table, true for
500, 502 and 504 exactly while within the generic retry bound, and false
for 400, 401 and 403 at every attempt. -/
theorem shouldRetry_characterisation (attempt : Nat) :
    (shouldRetry 503 attempt = true ↔ attempt ≤ serviceUnavailableMaxRetries) ∧
    (shouldRetry 429 attempt = true ↔ attempt ≤ serviceUnavailableMaxRetries) ∧
    (shouldRetry 500 attempt = true ↔ attempt ≤ retryMaxAttempts) ∧
    (shouldRetry 502 attempt = true ↔ attempt ≤ retryMaxAttempts) ∧
    (shouldRetry 504 attempt = true ↔ attempt ≤ retryMaxAttempts) ∧
    shouldRetry 400 attempt = false ∧
    shouldRetry 401 attempt = false ∧
    shouldRetry 403 attempt = false := by
  refine ⟨?_, ?_, ?_, ?_, ?_, ?_, ?_, ?_⟩ <;>
    simp [shouldRetry, retryBound, serviceUnavailableMaxRetries, retryMaxAttempts]

/-- C8: a single handleKeyError with code 429 strictly decreases the
dynamic weight of the addressed record whenever it is above minWeight, and
in that situation never increases it. -/
theorem handleKeyError429_decreases (s : KMState) (apiKey : String) (now : ℚ) (r : KeyRec)
    (hfind : findRec s.keys apiKey = some r)
    (hgt : minWeight < r.dynamicWeight) :
    ∃ r1, findRec (handleKeyError apiKey 429 now s).keys apiKey = some r1 ∧
      r1.dynamicWeight < r.dynamicWeight ∧ r1.dynamicWeight ≤ r.dynamicWeight := by
  refine ⟨handleKeyErrorRec 429 now r, ?_, ?_, ?_⟩
  · unfold handleKeyError
    rw [findRec_updateFirst apiKey _ (handleKeyErrorRec_key 429 now) s.keys, hfind]
    rfl
  · rw [handleKeyErrorRec_dyn]
    have hd : 0 < r.dynamicWeight := lt_trans minWeight_pos hgt
    have h1 : r.dynamicWeight * errorPenalties 429 < r.dynamicWeight := by
      have : errorPenalties 429 < 1 := by norm_num [errorPenalties]
      calc r.dynamicWeight * errorPenalties 429 < r.dynamicWeight * 1 := by
            exact mul_lt_mul_of_pos_left this hd
        _ = r.dynamicWeight := mul_one _
    exact max_lt h1 hgt
  · rw [handleKeyErrorRec_dyn]
    have hd : 0 < r.dynamicWeight := lt_trans minWeight_pos hgt
    have h1 : r.dynamicWeight * errorPenalties 429 ≤ r.dynamicWeight := by
      have : errorPenalties 429 ≤ 1 := errorPenalties_le_one 429
      calc r.dynamicWeight * errorPenalties 429 ≤ r.dynamicWeight * 1 :=
            mul_le_mul_of_nonneg_left this (le_of_lt hd)
        _ = r.dynamicWeight := mul_one _
    exact max_le h1 (le_of_lt hgt)

/-- Witness for C8 at the pool "k1:10". -/
theorem handleKeyError429_decreases_witness :
    ∃ r1, findRec (handleKeyError "k1" 429 7 (initState "k1:10" 0)).keys "k1" = some r1 ∧
      r1.dynamicWeight < (10 : ℚ) ∧ r1.dynamicWeight ≤ (10 : ℚ) := by
  have h := handleKeyError429_decreases (initState "k1:10" 0) "k1" 7
    ⟨"k1", 10, 0, 10, true, 0, 0, 0, none, 0⟩ (by decide) (by norm_num [minWeight])
  simpa using h

/-- C7: after an upstream 401 the dispatcher reports the key through
markAsUnhealthy, yet the record stays healthy with dynamicWeight 7 (the
penalty is recorded under code 500), contradicting the claimed permanent
unhealthy transition. -/
theorem upstream401_leaves_record_healthy :
    findRec (upstreamFeedback 401 "k1" 5 (initState "k1:10" 0)).keys "k1" =
      some { key := "k1", originalWeight := 10, currentWeight := 0, dynamicWeight := 7,
             healthy := true, lastChecked := 5, errorCount := 1, recoveryAttempts := 0,
             lastErrorCode := some 500, lastRecoveryAttempt := 0 } := by
  have h0 : initState "k1:10" 0 =
      ⟨[⟨"k1", 10, 0, 10, true, 0, 0, 0, none, 0⟩], 0, 0, 0⟩ := by decide
  rw [h0]
  norm_num [upstreamFeedback, markAsUnhealthy, handleKeyError, handleKeyErrorRec,
    updateFirst, findRec, errorPenalties, minWeight]

set_option maxHeartbeats 1600000 in
/-- C3: with pool "a,b,c:5" (all records healthy and eligible), the second
and third selectKey calls of the priority-queue selector both return "a",
although the bucket of "a" also holds "b" and the higher bucket holds the
eligible record "c". -/
theorem pq_consecutive_repeat :
    ((selectKeyD 2 (selectKeyD 1 (initStateD "a,b,c:5" 0)).2).1 = some "a") ∧
    ((selectKeyD 3 (selectKeyD 2 (selectKeyD 1 (initStateD "a,b,c:5" 0)).2).2).1 = some "a") ∧
    ((findRecD (selectKeyD 2 (selectKeyD 1 (initStateD "a,b,c:5" 0)).2).2.keys "c").any
        (fun k => k.healthy) = true) ∧
    ((findRecD (selectKeyD 2 (selectKeyD 1 (initStateD "a,b,c:5" 0)).2).2.keys "b").any
        (fun k => k.healthy) = true) := by
  have h0 : initStateD "a,b,c:5" 0 =
      ⟨[⟨"a", 1, 0, 1, true, 0, 0, 0, none, none, 0, false, none⟩,
        ⟨"b", 1, 0, 1, true, 0, 0, 0, none, none, 0, false, none⟩,
        ⟨"c", 5, 0, 5, true, 0, 0, 0, none, none, 0, false, none⟩], 0, 0, none, [], 0, 0, none⟩ := by
    decide
  have h1 : selectKeyD 1 (initStateD "a,b,c:5" 0) =
      (some "c",
       ⟨[⟨"a", 1, 0, 1, true, 0, 0, 0, none, none, 0, false, none⟩,
        ⟨"b", 1, 0, 1, true, 0, 0, 0, none, none, 0, false, none⟩,
        ⟨"c", 5, 0, 5, true, 0, 0, 0, none, none, 0, false, none⟩], 0, 0,
        some [(50, ["c"]), (10, ["a", "b"])], [50, 10], 0, 0, some "c"⟩) := by
    rw [h0]
    norm_num [selectKeyD, checkTemporaryRecovery, recoveryStepRecD, eligibleD,
      selectFromAvailableD, rebuildPriorityQueues, selectFromPriorityQueue, pqLoop, pqGet,
      pqSet, quantPriority, jsRound, sortDesc, insertDesc, minWeight, dedupKeepFirst,
      List.getD, List.get?, Option.getD]
    try decide
  have h2 : selectKeyD 2 (selectKeyD 1 (initStateD "a,b,c:5" 0)).2 =
      (some "a",
       ⟨[⟨"a", 1, 0, 1, true, 0, 0, 0, none, none, 0, false, none⟩,
        ⟨"b", 1, 0, 1, true, 0, 0, 0, none, none, 0, false, none⟩,
        ⟨"c", 5, 0, 5, true, 0, 0, 0, none, none, 0, false, none⟩], 0, 0,
        some [(50, ["c"]), (10, ["b", "a"])], [50, 10], 1, 1, some "a"⟩) := by
    rw [h1]
    norm_num [selectKeyD, checkTemporaryRecovery, recoveryStepRecD, eligibleD,
      selectFromAvailableD, rebuildPriorityQueues, selectFromPriorityQueue, pqLoop, pqGet,
      pqSet, quantPriority, jsRound, sortDesc, insertDesc, minWeight, dedupKeepFirst,
      List.getD, List.get?, Option.getD]
    try decide
  have h3 : selectKeyD 3 (selectKeyD 2 (selectKeyD 1 (initStateD "a,b,c:5" 0)).2).2 =
      (some "a",
       ⟨[⟨"a", 1, 0, 1, true, 0, 0, 0, none, none, 0, false, none⟩,
        ⟨"b", 1, 0, 1, true, 0, 0, 0, none, none, 0, false, none⟩,
        ⟨"c", 5, 0, 5, true, 0, 0, 0, none, none, 0, false, none⟩], 0, 0,
        some [(50, ["c"]), (10, ["a", "b"])], [50, 10], 1, 0, some "a"⟩) := by
    rw [h2]
    norm_num [selectKeyD, checkTemporaryRecovery, recoveryStepRecD, eligibleD,
      selectFromAvailableD, rebuildPriorityQueues, selectFromPriorityQueue, pqLoop, pqGet,
      pqSet, quantPriority, jsRound, sortDesc, insertDesc, minWeight, dedupKeepFirst,
      List.getD, List.get?, Option.getD]
    try decide
  refine ⟨by rw [h2], by rw [h3], ?_, ?_⟩
  · rw [h2]; decide
  · rw [h2]; decide

set_option maxHeartbeats 1600000 in
/-- C6: a 503 on the healthy record "a" puts it into the time-boxed
temporarily-unhealthy state with deadline 5 + 60000; a selectKey before that
deadline nevertheless returns "a" (the stale priority queue still contains
it) although "b" is healthy, and a selectKey at the deadline clears the
time-boxed state without any manual recover. -/
theorem temp503_selected_before_deadline :
    ((selectKeyD 1 (initStateD "a,b" 0)).1 = some "a") ∧
    (findRecD (handleKeyErrorD "a" 503 5 (selectKeyD 1 (initStateD "a,b" 0)).2).keys "a" =
      some ⟨"a", 1, 0, mkRat 3 10, false, 5, 1, 0, some 503, some 5, 0, true, some 60005⟩) ∧
    ((selectKeyD 10 (handleKeyErrorD "a" 503 5 (selectKeyD 1 (initStateD "a,b" 0)).2)).1 =
      some "a") ∧
    ((findRecD (handleKeyErrorD "a" 503 5 (selectKeyD 1 (initStateD "a,b" 0)).2).keys "b").any
        (fun k => k.healthy) = true) ∧
    ((findRecD
        (selectKeyD 60005 (handleKeyErrorD "a" 503 5 (selectKeyD 1 (initStateD "a,b" 0)).2)).2.keys
        "a").any (fun k => k.healthy && !k.temporaryUnhealthy) = true) := by
  have h0 : initStateD "a,b" 0 =
      ⟨[⟨"a", 1, 0, 1, true, 0, 0, 0, none, none, 0, false, none⟩,
        ⟨"b", 1, 0, 1, true, 0, 0, 0, none, none, 0, false, none⟩], 0, 0, none, [], 0, 0, none⟩ := by
    decide
  have h1 : selectKeyD 1 (initStateD "a,b" 0) =
      (some "a",
       ⟨[⟨"a", 1, 0, 1, true, 0, 0, 0, none, none, 0, false, none⟩,
        ⟨"b", 1, 0, 1, true, 0, 0, 0, none, none, 0, false, none⟩], 0, 0,
        some [(10, ["b", "a"])], [10], 0, 1, some "a"⟩) := by
    rw [h0]
    norm_num [selectKeyD, checkTemporaryRecovery, recoveryStepRecD, eligibleD,
      selectFromAvailableD, rebuildPriorityQueues, selectFromPriorityQueue, pqLoop, pqGet,
      pqSet, quantPriority, jsRound, sortDesc, insertDesc, minWeight, dedupKeepFirst,
      List.getD, List.get?, Option.getD]
    try decide
  have h2 : handleKeyErrorD "a" 503 5 (selectKeyD 1 (initStateD "a,b" 0)).2 =
      ⟨[⟨"a", 1, 0, mkRat 3 10, false, 5, 1, 0, some 503, some 5, 0, true, some 60005⟩,
        ⟨"b", 1, 0, 1, true, 0, 0, 0, none, none, 0, false, none⟩], 0, 0,
        some [(10, ["b", "a"])], [10], 0, 1, some "a"⟩ := by
    rw [h1]
    norm_num [handleKeyErrorD, handleKeyErrorRecD, updateFirstD, updateKeyHealthStatus,
      errorPenalties, minWeight]
    try decide
  have h3 : (selectKeyD 10 (handleKeyErrorD "a" 503 5 (selectKeyD 1 (initStateD "a,b" 0)).2)).1 =
      some "a" := by
    rw [h2]
    norm_num [selectKeyD, checkTemporaryRecovery, recoveryStepRecD, eligibleD,
      selectFromAvailableD, rebuildPriorityQueues, selectFromPriorityQueue, pqLoop, pqGet,
      pqSet, quantPriority, jsRound, sortDesc, insertDesc, minWeight, dedupKeepFirst,
      recoveryInterval, List.getD, List.get?, Option.getD]
    try decide
  have h4 : ((findRecD
        (selectKeyD 60005 (handleKeyErrorD "a" 503 5 (selectKeyD 1 (initStateD "a,b" 0)).2)).2.keys
        "a").any (fun k => k.healthy && !k.temporaryUnhealthy) = true) := by
    rw [h2]
    norm_num [selectKeyD, checkTemporaryRecovery, recoveryStepRecD, eligibleD,
      selectFromAvailableD, rebuildPriorityQueues, selectFromPriorityQueue, pqLoop, pqGet,
      pqSet, quantPriority, jsRound, sortDesc, insertDesc, minWeight, dedupKeepFirst,
      recoveryInterval, recoveryRate, healthThreshold, maxRecoveryAttempts, findRecD,
      List.getD, List.get?, Option.getD, List.find?]
    try decide
  refine ⟨by rw [h1], by rw [h2]; decide, h3, by rw [h2]; decide, h4⟩

theorem pickAux_fst_lt (l : List KeyRec) :
    ∀ (i : Nat) (best : Nat × ℚ), best.1 < i → (pickAux l i best).1 < i + l.length := by
  induction l with
  | nil => intro i best h; simpa using h
  | cons k rest ih =>
      intro i best h
      simp only [pickAux]
      have hb : (if best.2 < k.currentWeight then (i, k.currentWeight) else best).1 < i + 1 := by
        split
        · simp
        · omega
      have := ih (i + 1) _ hb
      simp only [List.length_cons]
      omega

theorem selectFromAvailable_resetCount (p : KeyRec → Bool) (s : KMState) :
    (selectFromAvailable p s).2.totalResetCount = s.totalResetCount := by
  unfold selectFromAvailable
  dsimp only
  split
  · rfl
  · split <;> rfl

theorem selectFromAvailable_isSome (p : KeyRec → Bool) (s : KMState)
    (h : ¬ s.keys.filter p = []) : ∃ k, (selectFromAvailable p s).1 = some k := by
  unfold selectFromAvailable
  dsimp only
  cases hsub : s.keys.filter p with
  | nil => exact absurd hsub h
  | cons k0 rest =>
      dsimp only
      split
      · exact ⟨k0.key, rfl⟩
      · have hlt : (pickAux (((k0 :: rest).map bumpCW).tail) 1 (0, (bumpCW k0).currentWeight)).1 <
            ((k0 :: rest).map bumpCW).length := by
          have := pickAux_fst_lt (((k0 :: rest).map bumpCW).tail) 1
            (0, (bumpCW k0).currentWeight) (by norm_num)
          simp only [List.map_cons, List.tail_cons, List.length_cons] at this ⊢
          omega
        rcases List.get?_eq_get hlt with hget
        exact ⟨(((k0 :: rest).map bumpCW).get ⟨_, hlt⟩).key, by rw [hget]; rfl⟩

theorem recoveryStepRec_id (now : ℚ) (k : KeyRec)
    (h : ¬ (k.dynamicWeight < k.originalWeight ∧
            recoveryInterval ≤ now - k.lastRecoveryAttempt ∧
            k.recoveryAttempts < maxRecoveryAttempts)) :
    recoveryStepRec now k = k := by
  unfold recoveryStepRec
  exact if_neg h

theorem attemptWeightRecovery_id (now : ℚ) (keys : List KeyRec)
    (h : ∀ k ∈ keys, ¬ (k.dynamicWeight < k.originalWeight ∧
            recoveryInterval ≤ now - k.lastRecoveryAttempt ∧
            k.recoveryAttempts < maxRecoveryAttempts)) :
    attemptWeightRecovery now keys = keys := by
  unfold attemptWeightRecovery
  rw [List.map_congr_left (fun k hk => recoveryStepRec_id now k (h k hk))]
  exact List.map_id _

/-- C5 evidence: from the state in which both records have
dynamicWeight = minWeight and healthy = false, selectKey returns a
credential but leaves totalResetCount at 0: no global reset happens,
because dynamicWeight = minWeight still passes the eligibility filter. -/
theorem minWeight_state_performs_no_reset :
    ((selectKey 1 ⟨[⟨"a", 1, 0, minWeight, false, 0, 0, 0, none, 0⟩,
                    ⟨"b", 1, 0, minWeight, false, 0, 0, 0, none, 0⟩], 0, 0, 0⟩).1 = some "a") ∧
    ((selectKey 1 ⟨[⟨"a", 1, 0, minWeight, false, 0, 0, 0, none, 0⟩,
                    ⟨"b", 1, 0, minWeight, false, 0, 0, 0, none, 0⟩], 0, 0, 0⟩).2.totalResetCount
       = 0) := by
  constructor <;>
    · norm_num [selectKey, attemptWeightRecovery, recoveryStepRec, eligibleB, minWeight,
        recoveryInterval, maxRecoveryAttempts, selectFromAvailable, bumpCW, pickAux,
        updFiltered, resetAllKeys]
      try decide

/-- C5 amended: when every record is unhealthy with dynamicWeight strictly
below minWeight and no weight recovery is due, the next selectKey performs
the global reset (totalResetCount goes up by one) and still returns a
credential. -/
theorem belowMinWeight_state_resets_and_selects (s : KMState) (now : ℚ)
    (hne : ¬ s.keys = [])
    (hall : ∀ k ∈ s.keys, k.healthy = false ∧ k.dynamicWeight < minWeight)
    (hrec : ∀ k ∈ s.keys, ¬ (k.dynamicWeight < k.originalWeight ∧
            recoveryInterval ≤ now - k.lastRecoveryAttempt ∧
            k.recoveryAttempts < maxRecoveryAttempts)) :
    (∃ key, (selectKey now s).1 = some key) ∧
    (selectKey now s).2.totalResetCount = s.totalResetCount + 1 := by
  have hid : attemptWeightRecovery now s.keys = s.keys := attemptWeightRecovery_id now s.keys hrec
  have hfil : s.keys.filter eligibleB = [] := by
    rw [List.filter_eq_nil]
    intro k hk
    rcases hall k hk with ⟨hh, hd⟩
    simp [eligibleB, hh, not_le.mpr hd]
  have hres : ¬ (resetAllKeys now { s with keys := s.keys }).keys.filter (fun _ => true) = [] := by
    simp only [resetAllKeys, List.filter_true]
    intro hmap
    exact hne (List.map_eq_nil.mp hmap)
  unfold selectKey
  rw [hid]
  simp only [hfil, List.isEmpty_nil, if_true]
  constructor
  · exact selectFromAvailable_isSome _ _ hres
  · rw [selectFromAvailable_resetCount]
    rfl

/-- Witness for the amended C5 on a concrete two-record state. -/
theorem belowMinWeight_state_resets_and_selects_witness :
    (∃ key, (selectKey 1 ⟨[⟨"a", 1, 0, mkRat 1 20, false, 0, 0, 0, none, 0⟩,
                           ⟨"b", 1, 0, mkRat 1 20, false, 0, 0, 0, none, 0⟩], 0, 0, 0⟩).1
        = some key) ∧
    (selectKey 1 ⟨[⟨"a", 1, 0, mkRat 1 20, false, 0, 0, 0, none, 0⟩,
                   ⟨"b", 1, 0, mkRat 1 20, false, 0, 0, 0, none, 0⟩], 0, 0, 0⟩).2.totalResetCount
      = 0 + 1 := by
  have h := belowMinWeight_state_resets_and_selects
    ⟨[⟨"a", 1, 0, mkRat 1 20, false, 0, 0, 0, none, 0⟩,
      ⟨"b", 1, 0, mkRat 1 20, false, 0, 0, 0, none, 0⟩], 0, 0, 0⟩ 1
    (by decide)
    (by intro k hk; fin_cases hk <;> constructor <;> norm_num [minWeight])
    (by intro k hk; fin_cases hk <;> norm_num [recoveryInterval, maxRecoveryAttempts])
  exact h

theorem recoveryStepRec_key (now : ℚ) (k : KeyRec) :
    (recoveryStepRec now k).key = k.key := by
  unfold recoveryStepRec
  dsimp only
  split
  · split <;> rfl
  · rfl

theorem selectFromAvailable_mem (p : KeyRec → Bool) (s : KMState) (k : String)
    (h : (selectFromAvailable p s).1 = some k) : k ∈ s.keys.map (fun r => r.key) := by
  unfold selectFromAvailable at h
  dsimp only at h
  revert h
  cases hsub : s.keys.filter p with
  | nil => intro h; exact absurd h (by simp)
  | cons k0 rest =>
      dsimp only
      split
      · intro h
        have hk : k = k0.key := by simpa using h.symm
        have : k0 ∈ s.keys := List.mem_of_mem_filter (hsub ▸ List.mem_cons_self k0 rest)
        exact hk ▸ List.mem_map_of_mem (fun r => r.key) this
      · intro h
        rcases Option.map_eq_some'.mp h with ⟨r, hget, hk⟩
        have hr : r ∈ (k0 :: rest).map bumpCW := List.get?_mem hget
        rcases List.mem_map.mp hr with ⟨r0, hr0, hb⟩
        have : r0 ∈ s.keys := List.mem_of_mem_filter (hsub ▸ hr0)
        have hkey : r.key = r0.key := by rw [← hb]; rfl
        rw [← hk, hkey]
        exact List.mem_map_of_mem (fun r => r.key) this

theorem selectKey_mem (now : ℚ) (s : KMState) (k : String)
    (h : (selectKey now s).1 = some k) : k ∈ s.keys.map (fun r => r.key) := by
  have hkeys : ∀ t : KMState, t.keys.map (fun r => r.key) = s.keys.map (fun r => r.key) →
      ∀ p, (selectFromAvailable p t).1 = some k → k ∈ s.keys.map (fun r => r.key) := by
    intro t ht p hp
    rw [← ht]
    exact selectFromAvailable_mem p t k hp
  unfold selectKey at h
  dsimp only at h
  have hrec : (attemptWeightRecovery now s.keys).map (fun r => r.key) =
      s.keys.map (fun r => r.key) := by
    unfold attemptWeightRecovery
    rw [List.map_map]
    exact List.map_congr_left (fun x _ => recoveryStepRec_key now x)
  revert h
  split
  · intro h
    refine hkeys _ ?_ _ h
    simp only [resetAllKeys, List.map_map]
    rw [show ((fun r : KeyRec => r.key) ∘ fun x : KeyRec =>
        { x with healthy := true, dynamicWeight := x.originalWeight, currentWeight := 0,
                 errorCount := 0, recoveryAttempts := 0, lastRecoveryAttempt := now }) =
        (fun r : KeyRec => r.key) from rfl]
    exact hrec
  · split <;> intro h <;> exact hkeys _ hrec _ h

/-- C1 evidence: a request presenting neither credential header, against a
deployment with an operator token but no operator keys, is answered by the
synthesized "No available API keys." response with HTTP status 500, not
401. -/
theorem noCredential_gives_500_not_401 :
    (resolveAndSelect none none "secret" (initState "" 0) 0).1 = AuthOutcome.noKeys ∧
    noKeysStatus = 500 ∧ ¬ noKeysStatus = 401 := by
  refine ⟨by decide, rfl, by decide⟩

/-- C1 amended: with neither credential header presented, handleRequest
falls back to the operator pool: it either proxies with a key of that pool,
or answers the synthesized 500 response; no 401 is produced and no key is
penalized on this path. -/
theorem noCredential_falls_back_to_server_pool (serverAuthToken : String) (s : KMState)
    (now : ℚ) (authHeader xGoogKey : Option String)
    (h1 : authHeader = none) (h2 : xGoogKey = none) :
    ((resolveAndSelect authHeader xGoogKey serverAuthToken s now).1 = AuthOutcome.noKeys) ∨
    (∃ k, (resolveAndSelect authHeader xGoogKey serverAuthToken s now).1 =
        AuthOutcome.proxied k ∧ k ∈ s.keys.map (fun r => r.key)) := by
  subst h1 h2
  unfold resolveAndSelect
  have hcond : ¬ (¬ serverAuthToken = "" ∧
      (headerToken none = some serverAuthToken ∨ (none : Option String) = some serverAuthToken)) := by
    simp [headerToken]
  rw [if_neg hcond]
  dsimp only
  have heph : truthyKey (selectKey now (initState ((jsOrS (headerToken none) none).getD "") now)).1
      = none := rfl
  rw [heph]
  dsimp only
  cases hk : truthyKey (selectKey now s).1 with
  | none => left; rfl
  | some k =>
      right
      refine ⟨k, rfl, ?_⟩
      have hsel : (selectKey now s).1 = some k := by
        revert hk
        unfold truthyKey
        cases (selectKey now s).1 with
        | none => intro hk; exact absurd hk (by simp)
        | some k0 =>
            dsimp only
            split
            · intro hk; exact absurd hk (by simp)
            · intro hk; simpa using hk
      exact selectKey_mem now s k hsel

/-- Witness for the amended C1 on a concrete operator pool. -/
theorem noCredential_falls_back_to_server_pool_witness :
    ((resolveAndSelect none none "secret" (initState "k1:10" 0) 0).1 = AuthOutcome.noKeys) ∨
    (∃ k, (resolveAndSelect none none "secret" (initState "k1:10" 0) 0).1 =
        AuthOutcome.proxied k ∧ k ∈ (initState "k1:10" 0).keys.map (fun r => r.key)) :=
  noCredential_falls_back_to_server_pool "secret" (initState "k1:10" 0) 0 none none rfl rfl

/-! ## Reachable-state machinery for the weight invariants -/

/-- The scheduler operations of the utils.js KeyManager, each carrying the
Date.now() value of its call. -/
inductive Step where
  | select (now : ℚ)
  | error (apiKey : String) (code : Nat) (now : ℚ)
  | recovery (now : ℚ)
  | recover (apiKey : String) (now : ℚ)
  | reset (now : ℚ)
deriving Repr, DecidableEq

/-- Apply one scheduler operation. -/
def applyStep : Step → KMState → KMState
  | Step.select now, s => (selectKey now s).2
  | Step.error apiKey code now, s => handleKeyError apiKey code now s
  | Step.recovery now, s => { s with keys := attemptWeightRecovery now s.keys }
  | Step.recover apiKey now, s => recoverKey apiKey now s
  | Step.reset now, s => resetAllKeys now s

/-- Apply a finite sequence of scheduler operations. -/
def runSteps (steps : List Step) (s : KMState) : KMState :=
  steps.foldl (fun s st => applyStep st s) s

/-- The per-record weight-bound invariant of the spec, together with the
lower bound on the configured weight that makes it sustainable. -/
def WeightInvRec (k : KeyRec) : Prop :=
  minWeight ≤ k.originalWeight ∧ minWeight ≤ k.dynamicWeight ∧
    k.dynamicWeight ≤ k.originalWeight

theorem recoveryStepRec_WeightInv (now : ℚ) (k : KeyRec) (h : WeightInvRec k) :
    WeightInvRec (recoveryStepRec now k) := by
  rcases h with ⟨ho, hl, hu⟩
  have hrate : (0:ℚ) ≤ k.originalWeight * recoveryRate :=
    mul_nonneg (le_trans (le_of_lt minWeight_pos) ho) (by norm_num [recoveryRate])
  unfold recoveryStepRec
  dsimp only
  split
  · split <;>
      exact ⟨ho, le_min (by linarith) ho, min_le_right _ _⟩
  · exact ⟨ho, hl, hu⟩

theorem handleKeyErrorRec_WeightInv (code : Nat) (now : ℚ) (k : KeyRec) (h : WeightInvRec k) :
    WeightInvRec (handleKeyErrorRec code now k) := by
  rcases h with ⟨ho, hl, hu⟩
  refine ⟨by rw [handleKeyErrorRec_orig]; exact ho, ?_, ?_⟩
  · rw [handleKeyErrorRec_dyn]; exact le_max_right _ _
  · rw [handleKeyErrorRec_dyn, handleKeyErrorRec_orig]
    refine max_le ?_ ho
    have h0 : (0:ℚ) ≤ k.dynamicWeight := le_trans (le_of_lt minWeight_pos) hl
    calc k.dynamicWeight * errorPenalties code ≤ k.dynamicWeight * 1 :=
          mul_le_mul_of_nonneg_left (errorPenalties_le_one code) h0
      _ = k.dynamicWeight := mul_one _
      _ ≤ k.originalWeight := hu

theorem updateFirst_pres (P : KeyRec → Prop) (apiKey : String) (f : KeyRec → KeyRec)
    (hf : ∀ k, P k → P (f k)) :
    ∀ l : List KeyRec, (∀ k ∈ l, P k) → ∀ k ∈ updateFirst apiKey f l, P k := by
  intro l
  induction l with
  | nil => intro _ k hk; simp [updateFirst] at hk
  | cons x rest ih =>
      intro hP k hk
      unfold updateFirst at hk
      by_cases hx : x.key = apiKey
      · rw [if_pos hx] at hk
        rcases List.mem_cons.mp hk with h | h
        · exact h ▸ hf x (hP x (List.mem_cons_self x rest))
        · exact hP k (List.mem_cons_of_mem x h)
      · rw [if_neg hx] at hk
        rcases List.mem_cons.mp hk with h | h
        · exact h ▸ hP x (List.mem_cons_self x rest)
        · exact ih (fun j hj => hP j (List.mem_cons_of_mem x hj)) k h

theorem updFiltered_pres (P : KeyRec → Prop) (p : KeyRec → Bool) (f : Nat → KeyRec → KeyRec)
    (hf : ∀ j k, P k → P (f j k)) :
    ∀ (l : List KeyRec) (j : Nat), (∀ k ∈ l, P k) → ∀ k ∈ updFiltered p f l j, P k := by
  intro l
  induction l with
  | nil => intro j _ k hk; simp [updFiltered] at hk
  | cons x rest ih =>
      intro j hP k hk
      unfold updFiltered at hk
      by_cases hx : p x = true
      · rw [if_pos hx] at hk
        rcases List.mem_cons.mp hk with h | h
        · exact h ▸ hf j x (hP x (List.mem_cons_self x rest))
        · exact ih (j + 1) (fun i hi => hP i (List.mem_cons_of_mem x hi)) k h
      · rw [if_neg hx] at hk
        rcases List.mem_cons.mp hk with h | h
        · exact h ▸ hP x (List.mem_cons_self x rest)
        · exact ih j (fun i hi => hP i (List.mem_cons_of_mem x hi)) k h

/-- The write-back of the SWRR selection only changes currentWeight, so any
predicate of the other fields is preserved across selectFromAvailable. -/
theorem selectFromAvailable_keys_pres (P : KeyRec → Prop)
    (hcw : ∀ (k : KeyRec) (q : ℚ), P k → P { k with currentWeight := q })
    (p : KeyRec → Bool) (s : KMState) (hP : ∀ k ∈ s.keys, P k) :
    ∀ k ∈ (selectFromAvailable p s).2.keys, P k := by
  unfold selectFromAvailable
  dsimp only
  split
  · exact hP
  · split
    · exact hP
    · refine updFiltered_pres P p _ ?_ s.keys 0 hP
      intro j k hk
      dsimp only
      split <;> exact hcw _ _ (hcw _ _ hk)

theorem selectKey_keys_pres (P : KeyRec → Prop)
    (hcw : ∀ (k : KeyRec) (q : ℚ), P k → P { k with currentWeight := q })
    (hrec : ∀ (now : ℚ) (k : KeyRec), P k → P (recoveryStepRec now k))
    (hres : ∀ (now : ℚ) (k : KeyRec), P k →
      P { k with healthy := true, dynamicWeight := k.originalWeight, currentWeight := 0,
                 errorCount := 0, recoveryAttempts := 0, lastRecoveryAttempt := now })
    (now : ℚ) (s : KMState) (hP : ∀ k ∈ s.keys, P k) :
    ∀ k ∈ (selectKey now s).2.keys, P k := by
  unfold selectKey
  dsimp only
  have h1 : ∀ k ∈ attemptWeightRecovery now s.keys, P k := by
    intro k hk
    rcases List.mem_map.mp hk with ⟨k0, hk0, hmap⟩
    exact hmap ▸ hrec now k0 (hP k0 hk0)
  split
  · refine selectFromAvailable_keys_pres P hcw _ _ ?_
    intro k hk
    simp only [resetAllKeys] at hk
    rcases List.mem_map.mp hk with ⟨k0, hk0, hmap⟩
    exact hmap ▸ hres now k0 (h1 k0 hk0)
  · split <;> exact selectFromAvailable_keys_pres P hcw _ _ h1

/-- One scheduler operation preserves the weight-bound invariant. -/
theorem applyStep_WeightInv (st : Step) (s : KMState)
    (h : ∀ k ∈ s.keys, WeightInvRec k) : ∀ k ∈ (applyStep st s).keys, WeightInvRec k := by
  have hcw : ∀ (k : KeyRec) (q : ℚ), WeightInvRec k → WeightInvRec { k with currentWeight := q } :=
    fun k q hk => hk
  have hres : ∀ (now : ℚ) (k : KeyRec), WeightInvRec k →
      WeightInvRec { k with healthy := true, dynamicWeight := k.originalWeight,
                            currentWeight := 0, errorCount := 0, recoveryAttempts := 0,
                            lastRecoveryAttempt := now } := by
    intro now k hk
    exact ⟨hk.1, hk.1, le_refl _⟩
  cases st with
  | select now =>
      exact selectKey_keys_pres WeightInvRec hcw (fun t k => recoveryStepRec_WeightInv t k)
        hres now s h
  | error apiKey code now =>
      exact updateFirst_pres WeightInvRec apiKey _
        (fun k => handleKeyErrorRec_WeightInv code now k) s.keys h
  | recovery now =>
      intro k hk
      rcases List.mem_map.mp hk with ⟨k0, hk0, hmap⟩
      exact hmap ▸ recoveryStepRec_WeightInv now k0 (h k0 hk0)
  | recover apiKey now =>
      refine updateFirst_pres WeightInvRec apiKey _ ?_ s.keys h
      intro k hk
      exact ⟨hk.1, hk.1, le_refl _⟩
  | reset now =>
      intro k hk
      simp only [applyStep, resetAllKeys] at hk
      rcases List.mem_map.mp hk with ⟨k0, hk0, hmap⟩
      exact hmap ▸ ⟨(h k0 hk0).1, (h k0 hk0).1, le_refl _⟩

theorem runSteps_WeightInv (steps : List Step) :
    ∀ s : KMState, (∀ k ∈ s.keys, WeightInvRec k) →
      ∀ k ∈ (runSteps steps s).keys, WeightInvRec k := by
  induction steps with
  | nil => intro s h; exact h
  | cons st rest ih =>
      intro s h
      exact ih (applyStep st s) (applyStep_WeightInv st s h)

theorem parseKeys_dyn_eq_orig (spec : String) (t0 : ℚ) :
    ∀ k ∈ parseKeys spec t0, k.dynamicWeight = k.originalWeight := by
  intro k hk
  unfold parseKeys at hk
  split at hk
  · simp at hk
  · rcases List.mem_map.mp hk with ⟨item, _, hmap⟩
    rw [← hmap]

/-- C2 evidence: the spec entry "k:0" parses to a record whose dynamic
weight 0 is below minWeight already in the initial state. -/
theorem parse_weight_zero_violates_bound :
    ∃ k ∈ (initState "k:0" 0).keys, ¬ minWeight ≤ k.dynamicWeight := by decide

/-- C2 amended: when every parsed weight is at least minWeight, every state
reachable by selectKey, handleKeyError, weight recovery, manual recover and
global reset keeps minWeight ≤ dynamicWeight ≤ originalWeight for every
record. -/
theorem weight_bounds_reachable (spec : String) (t0 : ℚ) (steps : List Step)
    (hw : ∀ k ∈ (initState spec t0).keys, minWeight ≤ k.originalWeight) :
    ∀ k ∈ (runSteps steps (initState spec t0)).keys,
      minWeight ≤ k.dynamicWeight ∧ k.dynamicWeight ≤ k.originalWeight := by
  have hinit : ∀ k ∈ (initState spec t0).keys, WeightInvRec k := by
    intro k hk
    have hd := parseKeys_dyn_eq_orig spec t0 k hk
    exact ⟨hw k hk, hd ▸ hw k hk, hd ▸ le_refl _⟩
  intro k hk
  exact ⟨(runSteps_WeightInv steps _ hinit k hk).2.1, (runSteps_WeightInv steps _ hinit k hk).2.2⟩

/-- Witness for the amended C2: pool "k1:10,k2", a 429 on k1 then a select. -/
theorem weight_bounds_reachable_witness :
    ((runSteps [Step.error "k1" 429 5, Step.select 6] (initState "k1:10,k2" 0)).keys.all
      (fun k => decide (minWeight ≤ k.dynamicWeight) &&
                decide (k.dynamicWeight ≤ k.originalWeight))) = true := by
  have h := weight_bounds_reachable "k1:10,k2" 0 [Step.error "k1" 429 5, Step.select 6]
    (by decide)
  rw [List.all_eq_true]
  intro k hk
  simp [(h k hk).1, (h k hk).2]

theorem updateFirst_length (apiKey : String) (f : KeyRec → KeyRec) :
    ∀ l : List KeyRec, (updateFirst apiKey f l).length = l.length := by
  intro l
  induction l with
  | nil => rfl
  | cons x rest ih =>
      unfold updateFirst
      split <;> simp [ih]

theorem updFiltered_length (p : KeyRec → Bool) (f : Nat → KeyRec → KeyRec) :
    ∀ (l : List KeyRec) (j : Nat), (updFiltered p f l j).length = l.length := by
  intro l
  induction l with
  | nil => intro j; rfl
  | cons x rest ih =>
      intro j
      unfold updFiltered
      split <;> simp [ih]

theorem selectFromAvailable_keys_length (p : KeyRec → Bool) (s : KMState) :
    (selectFromAvailable p s).2.keys.length = s.keys.length := by
  unfold selectFromAvailable
  dsimp only
  split
  · rfl
  · split
    · rfl
    · exact updFiltered_length _ _ s.keys 0

/-- The lower weight bound alone (used for the no-reset argument). -/
def LowerInvRec (k : KeyRec) : Prop :=
  minWeight ≤ k.originalWeight ∧ minWeight ≤ k.dynamicWeight

theorem recoveryStepRec_LowerInv (now : ℚ) (k : KeyRec) (h : LowerInvRec k) :
    LowerInvRec (recoveryStepRec now k) := by
  rcases h with ⟨ho, hl⟩
  have hrate : (0:ℚ) ≤ k.originalWeight * recoveryRate :=
    mul_nonneg (le_trans (le_of_lt minWeight_pos) ho) (by norm_num [recoveryRate])
  unfold recoveryStepRec
  dsimp only
  split
  · split <;> exact ⟨ho, le_min (by linarith) ho⟩
  · exact ⟨ho, hl⟩

theorem handleKeyErrorRec_LowerInv (code : Nat) (now : ℚ) (k : KeyRec) (h : LowerInvRec k) :
    LowerInvRec (handleKeyErrorRec code now k) := by
  refine ⟨by rw [handleKeyErrorRec_orig]; exact h.1, ?_⟩
  rw [handleKeyErrorRec_dyn]
  exact le_max_right _ _

theorem selectKey_no_reset (now : ℚ) (s : KMState) (hne : ¬ s.keys = [])
    (helig : ∀ k ∈ attemptWeightRecovery now s.keys, eligibleB k = true) :
    (selectKey now s).2.totalResetCount = s.totalResetCount := by
  unfold selectKey
  dsimp only
  have hfil : (attemptWeightRecovery now s.keys).filter eligibleB =
      attemptWeightRecovery now s.keys := List.filter_eq_self.mpr helig
  have hne2 : ¬ attemptWeightRecovery now s.keys = [] := by
    unfold attemptWeightRecovery
    intro hmap
    exact hne (List.map_eq_nil_iff.mp hmap)
  rw [hfil, if_neg (by simpa [List.isEmpty_iff] using hne2)]
  split <;> exact selectFromAvailable_resetCount _ _

theorem selectKey_keys_length' (now : ℚ) (s : KMState) :
    (selectKey now s).2.keys.length = s.keys.length := by
  unfold selectKey
  dsimp only
  split
  · rw [selectFromAvailable_keys_length]
    simp [resetAllKeys, attemptWeightRecovery]
  · split <;>
      · rw [selectFromAvailable_keys_length]
        simp [attemptWeightRecovery]

/-- The invariant of C10: non-empty pool, reset counter still zero, and all
records at or above minWeight. -/
def ClampInv (s : KMState) : Prop :=
  ¬ s.keys = [] ∧ s.totalResetCount = 0 ∧ ∀ k ∈ s.keys, LowerInvRec k

theorem ClampInv_select (now : ℚ) (s : KMState) (h : ClampInv s) :
    ClampInv (selectKey now s).2 := by
  rcases h with ⟨hne, hrc, hP⟩
  have hPrec : ∀ k ∈ attemptWeightRecovery now s.keys, LowerInvRec k := by
    intro k hk
    rcases List.mem_map.mp hk with ⟨k0, hk0, hmap⟩
    exact hmap ▸ recoveryStepRec_LowerInv now k0 (hP k0 hk0)
  have helig : ∀ k ∈ attemptWeightRecovery now s.keys, eligibleB k = true := by
    intro k hk
    simp [eligibleB, (hPrec k hk).2]
  refine ⟨?_, ?_, ?_⟩
  · intro hnil
    have := selectKey_keys_length' now s
    rw [hnil] at this
    simp only [List.length_nil] at this
    exact hne (List.length_eq_zero.mp this.symm)
  · rw [selectKey_no_reset now s hne helig]
    exact hrc
  · exact selectKey_keys_pres LowerInvRec (fun k q hk => hk)
      (fun t k => recoveryStepRec_LowerInv t k)
      (fun t k hk => ⟨hk.1, hk.1⟩) now s hP

theorem ClampInv_error (apiKey : String) (code : Nat) (now : ℚ) (s : KMState)
    (h : ClampInv s) : ClampInv (handleKeyError apiKey code now s) := by
  rcases h with ⟨hne, hrc, hP⟩
  refine ⟨?_, hrc, ?_⟩
  · intro hnil
    have := updateFirst_length apiKey (handleKeyErrorRec code now) s.keys
    rw [show (handleKeyError apiKey code now s).keys =
        updateFirst apiKey (handleKeyErrorRec code now) s.keys from rfl] at hnil
    rw [hnil] at this
    simp only [List.length_nil] at this
    exact hne (List.length_eq_zero.mp this.symm)
  · exact updateFirst_pres LowerInvRec apiKey _
      (fun k => handleKeyErrorRec_LowerInv code now k) s.keys hP

theorem ClampInv_runSteps (steps : List Step)
    (hsteps : ∀ st ∈ steps, (∃ now, st = Step.select now) ∨
      (∃ apiKey code now, st = Step.error apiKey code now)) :
    ∀ s : KMState, ClampInv s → ClampInv (runSteps steps s) := by
  induction steps with
  | nil => intro s h; exact h
  | cons st rest ih =>
      intro s h
      have hst := hsteps st (List.mem_cons_self st rest)
      have hrest : ∀ st ∈ rest, (∃ now, st = Step.select now) ∨
          (∃ apiKey code now, st = Step.error apiKey code now) :=
        fun x hx => hsteps x (List.mem_cons_of_mem st hx)
      have h1 : ClampInv (applyStep st s) := by
        rcases hst with ⟨now, rfl⟩ | ⟨apiKey, code, now, rfl⟩
        · exact ClampInv_select now s h
        · exact ClampInv_error apiKey code now s h
      exact ih hrest (applyStep st s) h1

/-- C10: from a non-empty pool whose parsed weights are all at least
minWeight, any sequence of selectKey and handleKeyError calls keeps every
dynamic weight at or above minWeight, keeps the eligible set non-empty,
and never takes the global-reset branch (totalResetCount stays 0). -/
theorem clamped_pool_never_resets (spec : String) (t0 : ℚ) (steps : List Step)
    (hne : ¬ (initState spec t0).keys = [])
    (hw : ∀ k ∈ (initState spec t0).keys, minWeight ≤ k.originalWeight)
    (hsteps : ∀ st ∈ steps, (∃ now, st = Step.select now) ∨
      (∃ apiKey code now, st = Step.error apiKey code now)) :
    (∀ k ∈ (runSteps steps (initState spec t0)).keys, minWeight ≤ k.dynamicWeight) ∧
    ¬ (runSteps steps (initState spec t0)).keys.filter eligibleB = [] ∧
    (runSteps steps (initState spec t0)).totalResetCount = 0 := by
  have hinit : ClampInv (initState spec t0) := by
    refine ⟨hne, rfl, ?_⟩
    intro k hk
    have hd := parseKeys_dyn_eq_orig spec t0 k hk
    exact ⟨hw k hk, hd ▸ hw k hk⟩
  have hfin := ClampInv_runSteps steps hsteps (initState spec t0) hinit
  rcases hfin with ⟨hne2, hrc, hP⟩
  refine ⟨fun k hk => (hP k hk).2, ?_, hrc⟩
  rw [List.filter_eq_self.mpr (fun k hk => by simp [eligibleB, (hP k hk).2])]
  exact hne2

/-- Witness for C10: pool "k1:10,k2" with a 503 error and two selections. -/
theorem clamped_pool_never_resets_witness :
    (∀ k ∈ (runSteps [Step.select 1, Step.error "k1" 503 2, Step.select 3]
        (initState "k1:10,k2" 0)).keys, minWeight ≤ k.dynamicWeight) ∧
    ¬ (runSteps [Step.select 1, Step.error "k1" 503 2, Step.select 3]
        (initState "k1:10,k2" 0)).keys.filter eligibleB = [] ∧
    (runSteps [Step.select 1, Step.error "k1" 503 2, Step.select 3]
        (initState "k1:10,k2" 0)).totalResetCount = 0 :=
  clamped_pool_never_resets "k1:10,k2" 0 [Step.select 1, Step.error "k1" 503 2, Step.select 3]
    (by decide) (by decide)
    (by
      intro st hst
      fin_cases hst
      · exact Or.inl ⟨1, rfl⟩
      · exact Or.inr ⟨"k1", 503, 2, rfl⟩
      · exact Or.inl ⟨3, rfl⟩)

/-! ## Round-robin behaviour of the SWRR selection on equal weights -/

/-- Iterated selection: the state before the m-th selectKey call, the call
times being given by τ. -/
def runSel (τ : Nat → ℚ) (s : KMState) : Nat → KMState
  | 0 => s
  | m + 1 => (selectKey (τ m) (runSel τ s m)).2

/-- The credential returned by the m-th selectKey call. -/
def selAt (τ : Nat → ℚ) (s : KMState) (m : Nat) : Option String :=
  (selectKey (τ m) (runSel τ s m)).1

/-- Replace the scheduling accumulator of a record. -/
def setcw (c : ℚ) (k : KeyRec) : KeyRec := { k with currentWeight := c }

/-- The accumulator pattern of the SWRR state after m calls with m % n = r
on an equal-weight pool: the first r records carry (r - n)w, the rest rw. -/
def cycleKeys (ks0 : List KeyRec) (w : ℚ) (r : Nat) : List KeyRec :=
  (ks0.take r).map (setcw (((r : ℚ) - (ks0.length : ℚ)) * w)) ++
    (ks0.drop r).map (setcw ((r : ℚ) * w))

/-- Indexed map, mirroring updFiltered when the filter accepts everything. -/
def mapIdxFrom (f : Nat → KeyRec → KeyRec) : List KeyRec → Nat → List KeyRec
  | [], _ => []
  | k :: rest, j => f j k :: mapIdxFrom f rest (j + 1)

theorem mapIdxFrom_cons (f : Nat → KeyRec → KeyRec) (k : KeyRec) (rest : List KeyRec) (j : Nat) :
    mapIdxFrom f (k :: rest) j = f j k :: mapIdxFrom f rest (j + 1) := rfl

theorem updFiltered_true (p : KeyRec → Bool) (f : Nat → KeyRec → KeyRec) :
    ∀ (l : List KeyRec) (j : Nat), (∀ k ∈ l, p k = true) →
      updFiltered p f l j = mapIdxFrom f l j := by
  intro l
  induction l with
  | nil => intro j _; rfl
  | cons x rest ih =>
      intro j hp
      unfold updFiltered mapIdxFrom
      rw [if_pos (hp x (List.mem_cons_self x rest))]
      rw [ih (j + 1) (fun k hk => hp k (List.mem_cons_of_mem x hk))]

theorem mapIdxFrom_append (f : Nat → KeyRec → KeyRec) :
    ∀ (l1 l2 : List KeyRec) (j : Nat),
      mapIdxFrom f (l1 ++ l2) j = mapIdxFrom f l1 j ++ mapIdxFrom f l2 (j + l1.length) := by
  intro l1
  induction l1 with
  | nil => intro l2 j; simp [mapIdxFrom]
  | cons x rest ih =>
      intro l2 j
      simp only [List.cons_append, mapIdxFrom, List.append_eq, List.length_cons]
      rw [ih l2 (j + 1), show j + (rest.length + 1) = j + 1 + rest.length by omega]

theorem mapIdxFrom_eq_map (f : Nat → KeyRec → KeyRec) (g : KeyRec → KeyRec) :
    ∀ (l : List KeyRec) (j0 : Nat),
      (∀ j k, j0 ≤ j → j < j0 + l.length → k ∈ l → f j k = g k) →
      mapIdxFrom f l j0 = l.map g := by
  intro l
  induction l with
  | nil => intro j0 _; rfl
  | cons x rest ih =>
      intro j0 h
      unfold mapIdxFrom
      rw [List.map_cons, h j0 x (le_refl _) (by simp) (List.mem_cons_self x rest)]
      rw [ih (j0 + 1) (fun j k hj1 hj2 hk =>
        h j k (by omega) (by simp only [List.length_cons]; omega) (List.mem_cons_of_mem x hk))]

theorem pickAux_stay (l : List KeyRec) :
    ∀ (i : Nat) (b : Nat × ℚ), (∀ k ∈ l, ¬ b.2 < k.currentWeight) → pickAux l i b = b := by
  induction l with
  | nil => intro i b _; rfl
  | cons x rest ih =>
      intro i b h
      unfold pickAux
      rw [if_neg (h x (List.mem_cons_self x rest))]
      exact ih (i + 1) b (fun k hk => h k (List.mem_cons_of_mem x hk))

theorem pickAux_skip (l1 : List KeyRec) :
    ∀ (l2 : List KeyRec) (i : Nat) (b : Nat × ℚ),
      (∀ k ∈ l1, ¬ b.2 < k.currentWeight) →
      pickAux (l1 ++ l2) i b = pickAux l2 (i + l1.length) b := by
  induction l1 with
  | nil => intro l2 i b _; rfl
  | cons x rest ih =>
      intro l2 i b h
      simp only [List.cons_append, pickAux, List.append_eq]
      rw [if_neg (h x (List.mem_cons_self x rest))]
      rw [ih l2 (i + 1) b (fun k hk => h k (List.mem_cons_of_mem x hk))]
      simp only [List.length_cons]
      rw [show i + 1 + rest.length = i + (rest.length + 1) by omega]

theorem foldl_dyn_sum (w : ℚ) :
    ∀ (l : List KeyRec) (a : ℚ), (∀ k ∈ l, k.dynamicWeight = w) →
      l.foldl (fun acc k => acc + k.dynamicWeight) a = a + (l.length : ℚ) * w := by
  intro l
  induction l with
  | nil => intro a _; simp
  | cons x rest ih =>
      intro a h
      simp only [List.foldl_cons, List.length_cons]
      rw [h x (List.mem_cons_self x rest),
        ih (a + w) (fun k hk => h k (List.mem_cons_of_mem x hk))]
      push_cast
      ring

theorem pick_two_blocks (t d : List KeyRec) (a b : ℚ) (k0 : KeyRec) (rest : List KeyRec)
    (hd : ¬ d = []) (hab : a < b)
    (hshape : t.map (setcw a) ++ d.map (setcw b) = k0 :: rest) :
    pickAux rest 1 (0, k0.currentWeight) = (t.length, b) := by
  cases t with
  | nil =>
      cases d with
      | nil => exact absurd rfl hd
      | cons d0 dtl =>
          simp only [List.map_nil, List.map_cons, List.nil_append, List.cons.injEq] at hshape
          rcases hshape with ⟨hk0, hrest⟩
          rw [← hrest, ← hk0]
          exact pickAux_stay _ 1 (0, b) (fun k hk => by
            rcases List.mem_map.mp hk with ⟨k1, _, hk1⟩
            rw [← hk1]
            simp [setcw])
  | cons t0 ttl =>
      simp only [List.map_cons, List.cons_append, List.cons.injEq] at hshape
      rcases hshape with ⟨hk0, hrest⟩
      rw [← hrest, ← hk0]
      have hskip : pickAux (ttl.map (setcw a) ++ d.map (setcw b)) 1 (0, (setcw a t0).currentWeight)
          = pickAux (d.map (setcw b)) (1 + ttl.length) (0, a) := by
        rw [pickAux_skip _ _ 1 (0, (setcw a t0).currentWeight) (fun k hk => by
          rcases List.mem_map.mp hk with ⟨k1, _, hk1⟩
          rw [← hk1]
          simp [setcw])]
        simp [setcw, List.length_map]
      rw [hskip]
      cases d with
      | nil => exact absurd rfl hd
      | cons d0 dtl =>
          simp only [List.map_cons, pickAux, setcw]
          rw [if_pos (by simpa using hab)]
          have := pickAux_stay (dtl.map (setcw b)) (1 + ttl.length + 1)
            (1 + ttl.length, ({ d0 with currentWeight := b } : KeyRec).currentWeight)
            (fun k hk => by
              rcases List.mem_map.mp hk with ⟨k1, _, hk1⟩
              rw [← hk1]
              simp [setcw])
          simp only at this
          rw [this]
          simp only [List.length_cons]
          congr 1
          omega

theorem cycleKeys_length (ks0 : List KeyRec) (w : ℚ) (r : Nat) (hr : r ≤ ks0.length) :
    (cycleKeys ks0 w r).length = ks0.length := by
  simp [cycleKeys, List.length_take, List.length_drop, Nat.min_eq_left hr]
  omega

theorem cycleKeys_dyn (ks0 : List KeyRec) (w : ℚ) (r : Nat)
    (hks : ∀ k ∈ ks0, k.dynamicWeight = w) :
    ∀ k ∈ cycleKeys ks0 w r, k.dynamicWeight = w := by
  intro k hk
  rcases List.mem_append.mp hk with h | h <;>
    · rcases List.mem_map.mp h with ⟨k0, hk0, hmap⟩
      rw [← hmap]
      show k0.dynamicWeight = w
      first
      | exact hks k0 (List.take_subset _ _ hk0)
      | exact hks k0 (List.drop_subset _ _ hk0)

theorem cycleKeys_healthy (ks0 : List KeyRec) (w : ℚ) (r : Nat)
    (hks : ∀ k ∈ ks0, k.healthy = true) :
    ∀ k ∈ cycleKeys ks0 w r, k.healthy = true := by
  intro k hk
  rcases List.mem_append.mp hk with h | h <;>
    · rcases List.mem_map.mp h with ⟨k0, hk0, hmap⟩
      rw [← hmap]
      show k0.healthy = true
      first
      | exact hks k0 (List.take_subset _ _ hk0)
      | exact hks k0 (List.drop_subset _ _ hk0)

theorem cycleKeys_bump (ks0 : List KeyRec) (w : ℚ) (r : Nat)
    (hks : ∀ k ∈ ks0, k.dynamicWeight = w) :
    (cycleKeys ks0 w r).map bumpCW =
      (ks0.take r).map (setcw (((r : ℚ) - (ks0.length : ℚ)) * w + w)) ++
        (ks0.drop r).map (setcw ((r : ℚ) * w + w)) := by
  simp only [cycleKeys, List.map_append, List.map_map]
  congr 1
  · refine List.map_congr_left ?_
    intro k hk
    have hd : k.dynamicWeight = w := hks k (List.take_subset _ _ hk)
    simp [Function.comp, bumpCW, setcw, hd]
  · refine List.map_congr_left ?_
    intro k hk
    have hd : k.dynamicWeight = w := hks k (List.drop_subset _ _ hk)
    simp [Function.comp, bumpCW, setcw, hd]

/-- One SWRR selection step on the equal-weight accumulator pattern: the
r-th record is returned and the pattern advances from r to r + 1. -/
theorem selectFromAvailable_cycle (ks0 : List KeyRec) (w : ℚ) (r : Nat) (p : KeyRec → Bool)
    (s : KMState) (hw : 0 < w) (hn : 0 < ks0.length) (hr : r < ks0.length)
    (hks : ∀ k ∈ ks0, k.dynamicWeight = w)
    (hkeys : s.keys = cycleKeys ks0 w r)
    (hp : ∀ k ∈ cycleKeys ks0 w r, p k = true) :
    selectFromAvailable p s =
      ((ks0.get? r).map (fun k => k.key), { s with keys := cycleKeys ks0 w (r + 1) }) := by
  have hfil : s.keys.filter p = cycleKeys ks0 w r := by
    rw [hkeys]
    exact List.filter_eq_self.mpr hp
  have hdyn := cycleKeys_dyn ks0 w r hks
  have hlen : (cycleKeys ks0 w r).length = ks0.length :=
    cycleKeys_length ks0 w r (le_of_lt hr)
  have hnw : (0:ℚ) < (ks0.length : ℚ) * w :=
    mul_pos (by exact_mod_cast hn) hw
  cases hc : cycleKeys ks0 w r with
  | nil =>
      rw [hc] at hlen
      simp at hlen
      omega
  | cons k0 rest =>
  have htot : (k0 :: rest).foldl (fun acc k => acc + k.dynamicWeight) 0 =
      (ks0.length : ℚ) * w := by
    have := foldl_dyn_sum w (k0 :: rest) 0 (fun k hk => hdyn k (hc ▸ hk))
    rw [this, ← hc, hlen]
    ring
  have hdrop : ¬ ks0.drop r = [] := by
    intro hnil
    have := List.drop_eq_nil_iff.mp hnil
    omega
  have hab : ((r : ℚ) - (ks0.length : ℚ)) * w + w < (r : ℚ) * w + w := by
    have : ((r : ℚ) - (ks0.length : ℚ)) * w = (r : ℚ) * w - (ks0.length : ℚ) * w := by ring
    linarith
  have hshape : (ks0.take r).map (setcw (((r : ℚ) - (ks0.length : ℚ)) * w + w)) ++
      (ks0.drop r).map (setcw ((r : ℚ) * w + w)) = bumpCW k0 :: rest.map bumpCW := by
    rw [← cycleKeys_bump ks0 w r hks, hc, List.map_cons]
  have hpick : pickAux (rest.map bumpCW) 1 (0, (bumpCW k0).currentWeight) =
      ((ks0.take r).length, (r : ℚ) * w + w) :=
    pick_two_blocks (ks0.take r) (ks0.drop r) _ _ (bumpCW k0) (rest.map bumpCW)
      hdrop hab hshape
  have htakelen : (ks0.take r).length = r := by
    simp [List.length_take, Nat.min_eq_left (le_of_lt hr)]
  unfold selectFromAvailable
  dsimp only
  rw [hfil, hc]
  dsimp only
  rw [htot, if_neg (not_le.mpr hnw)]
  rw [show (k0 :: rest).map bumpCW = bumpCW k0 :: rest.map bumpCW from rfl]
  dsimp only [List.tail_cons]
  rw [hpick, htakelen]
  rw [Prod.mk.injEq]
  refine ⟨?_, ?_⟩
  · -- the selected credential is the r-th record of the pool
    rw [show (bumpCW k0 :: rest.map bumpCW) = (cycleKeys ks0 w r).map bumpCW by
      rw [hc, List.map_cons]]
    rw [cycleKeys_bump ks0 w r hks]
    rw [List.get?_append_right (by rw [List.length_map, htakelen])]
    rw [List.length_map, htakelen, Nat.sub_self, List.get?_map, List.get?_drop, Nat.add_zero]
    cases hg : ks0.get? r with
    | none => rfl
    | some kr => simp [setcw]
  · -- the written-back accumulator pattern advances to r + 1
    congr 1
    rw [hkeys]
    rw [updFiltered_true p _ (cycleKeys ks0 w r) 0 hp]
    unfold cycleKeys
    rw [mapIdxFrom_append]
    have hA : mapIdxFrom
        (fun j k =>
          let k1 := bumpCW k
          if j = r then { k1 with currentWeight := k1.currentWeight - (ks0.length : ℚ) * w }
          else k1)
        ((ks0.take r).map (setcw (((r : ℚ) - (ks0.length : ℚ)) * w))) 0 =
        (ks0.take r).map (setcw ((((r : ℚ) + 1) - (ks0.length : ℚ)) * w)) := by
      rw [mapIdxFrom_eq_map _ bumpCW _ 0 (fun j k hj1 hj2 hk => by
        have hjr : ¬ j = r := by
          rw [List.length_map, htakelen] at hj2
          omega
        dsimp only
        rw [if_neg hjr])]
      rw [List.map_map]
      refine List.map_congr_left ?_
      intro k hk
      have hd : k.dynamicWeight = w := hks k (List.take_subset _ _ hk)
      show bumpCW (setcw _ k) = setcw _ k
      simp only [bumpCW, setcw, hd]
      congr 1
      ring
    rw [List.length_map, htakelen, hA, Nat.zero_add]
    -- second block: the selected head is debited by the total weight
    rcases List.exists_cons_of_ne_nil hdrop with ⟨d0, dtl, hd⟩
    have hdtl : dtl = ks0.drop (r + 1) := by
      have h1 : (ks0.drop r).tail = ks0.drop (r + 1) := by
        rw [List.tail_drop]
      rw [hd] at h1
      simpa using h1
    have hd0 : ks0.get? r = some d0 := by
      have := List.get?_drop ks0 r 0
      rw [hd] at this
      simpa using this.symm
    rw [hd, List.map_cons, mapIdxFrom_cons]
    dsimp only
    rw [if_pos rfl]
    have hB : mapIdxFrom
        (fun j k =>
          let k1 := bumpCW k
          if j = r then { k1 with currentWeight := k1.currentWeight - (ks0.length : ℚ) * w }
          else k1)
        (dtl.map (setcw ((r : ℚ) * w))) (r + 1) =
        dtl.map (setcw (((r : ℚ) + 1) * w)) := by
      rw [mapIdxFrom_eq_map _ bumpCW _ (r + 1) (fun j k hj1 hj2 hk => by
        have hjr : ¬ j = r := by omega
        dsimp only
        rw [if_neg hjr])]
      rw [List.map_map]
      refine List.map_congr_left ?_
      intro k hk
      have hd' : k.dynamicWeight = w := by
        refine hks k ?_
        have : k ∈ ks0.drop (r + 1) := hdtl ▸ hk
        exact List.drop_subset _ _ this
      show bumpCW (setcw _ k) = setcw _ k
      simp only [bumpCW, setcw, hd']
      congr 1
      ring
    rw [hB]
    have hd0dyn : d0.dynamicWeight = w := by
      refine hks d0 ?_
      have : d0 ∈ ks0.drop r := by rw [hd]; exact List.mem_cons_self _ _
      exact List.drop_subset _ _ this
    have hhead : { bumpCW (setcw ((r : ℚ) * w) d0) with currentWeight :=
        (bumpCW (setcw ((r : ℚ) * w) d0)).currentWeight - (ks0.length : ℚ) * w } =
        setcw ((((r : ℚ) + 1) - (ks0.length : ℚ)) * w) d0 := by
      simp only [bumpCW, setcw, hd0dyn]
      congr 1
      ring
    rw [hhead]
    -- reassemble into the (r+1) pattern
    have htake : ks0.take (r + 1) = ks0.take r ++ [d0] := by
      rw [List.take_succ, ← List.get?_eq_getElem?, hd0]
      rfl
    rw [show ((r + 1 : Nat) : ℚ) = (r : ℚ) + 1 by push_cast; ring]
    rw [htake, hdtl]
    simp [List.map_append]

theorem cycleKeys_orig (ks0 : List KeyRec) (w : ℚ) (r : Nat)
    (hks : ∀ k ∈ ks0, k.originalWeight = w) :
    ∀ k ∈ cycleKeys ks0 w r, k.originalWeight = w := by
  intro k hk
  rcases List.mem_append.mp hk with h | h <;>
    · rcases List.mem_map.mp h with ⟨k0, hk0, hmap⟩
      rw [← hmap]
      show k0.originalWeight = w
      first
      | exact hks k0 (List.take_subset _ _ hk0)
      | exact hks k0 (List.drop_subset _ _ hk0)

/-- Equal-weight pool: all records healthy with dynamic and configured
weight w. -/
def EqualPool (ks0 : List KeyRec) (w : ℚ) : Prop :=
  ∀ k ∈ ks0, k.healthy = true ∧ k.dynamicWeight = w ∧ k.originalWeight = w

theorem selectKey_cycle (ks0 : List KeyRec) (w : ℚ) (r : Nat) (now : ℚ) (s : KMState)
    (hw : 0 < w) (hn : 0 < ks0.length) (hr : r < ks0.length)
    (hpool : EqualPool ks0 w) (hkeys : s.keys = cycleKeys ks0 w r) :
    selectKey now s =
      ((ks0.get? r).map (fun k => k.key), { s with keys := cycleKeys ks0 w (r + 1) }) := by
  have hdyn := cycleKeys_dyn ks0 w r (fun k hk => (hpool k hk).2.1)
  have horig := cycleKeys_orig ks0 w r (fun k hk => (hpool k hk).2.2)
  have hhealthy := cycleKeys_healthy ks0 w r (fun k hk => (hpool k hk).1)
  have hid : attemptWeightRecovery now s.keys = s.keys := by
    refine attemptWeightRecovery_id now s.keys ?_
    intro k hk
    rw [hkeys] at hk
    rw [hdyn k hk, horig k hk]
    intro hcontra
    exact lt_irrefl w hcontra.1
  have hne : ¬ s.keys = [] := by
    rw [hkeys]
    intro hnil
    have := cycleKeys_length ks0 w r (le_of_lt hr)
    rw [hnil] at this
    simp at this
    omega
  have hfil1 : s.keys.filter eligibleB = s.keys := by
    refine List.filter_eq_self.mpr ?_
    intro k hk
    rw [hkeys] at hk
    simp [eligibleB, hhealthy k hk]
  have hfil2 : s.keys.filter (fun k => k.healthy) = s.keys := by
    refine List.filter_eq_self.mpr ?_
    intro k hk
    rw [hkeys] at hk
    exact hhealthy k hk
  unfold selectKey
  dsimp only
  rw [hid, hfil1, if_neg (by simpa [List.isEmpty_iff] using hne), hfil2,
    if_neg (by simpa [List.isEmpty_iff] using hne)]
  refine selectFromAvailable_cycle ks0 w r _ _ hw hn hr (fun k hk => (hpool k hk).2.1)
    hkeys ?_
  intro k hk
  simp [eligibleB, hhealthy k hk]

theorem setcw_self (k : KeyRec) (c : ℚ) (h : k.currentWeight = c) : setcw c k = k := by
  cases k
  simp only [setcw] at h ⊢
  rw [← h]

theorem cycleKeys_wrap (ks0 : List KeyRec) (w : ℚ) :
    cycleKeys ks0 w ks0.length = cycleKeys ks0 w 0 := by
  simp only [cycleKeys, List.take_length, List.drop_length, List.take_zero, List.drop_zero,
    List.map_nil, List.nil_append, List.append_nil, Nat.cast_zero]
  refine List.map_congr_left ?_
  intro k _
  rw [show ((ks0.length : ℚ) - (ks0.length : ℚ)) * w = 0 * w by ring]

theorem runSel_keys_cycle (ks0 : List KeyRec) (w : ℚ) (s0 : KMState) (τ : Nat → ℚ)
    (hw : 0 < w) (hn : 0 < ks0.length) (hpool : EqualPool ks0 w)
    (hcw : ∀ k ∈ ks0, k.currentWeight = 0) (hkeys : s0.keys = ks0) :
    ∀ m, (runSel τ s0 m).keys = cycleKeys ks0 w (m % ks0.length) := by
  intro m
  induction m with
  | zero =>
      show s0.keys = cycleKeys ks0 w (0 % ks0.length)
      rw [Nat.zero_mod, hkeys]
      simp only [cycleKeys, List.take_zero, List.map_nil, List.nil_append, List.drop_zero,
        Nat.cast_zero]
      symm
      calc List.map (setcw (0 * w)) ks0 = List.map id ks0 :=
            List.map_congr_left (fun k hk => setcw_self k _ (by rw [hcw k hk]; ring))
        _ = ks0 := List.map_id ks0
  | succ m ih =>
      have hr : m % ks0.length < ks0.length := Nat.mod_lt _ hn
      have hstep := selectKey_cycle ks0 w (m % ks0.length) (τ m) (runSel τ s0 m)
        hw hn hr hpool ih
      show ((selectKey (τ m) (runSel τ s0 m)).2).keys = _
      rw [hstep]
      show cycleKeys ks0 w (m % ks0.length + 1) = cycleKeys ks0 w ((m + 1) % ks0.length)
      have hmod : (m + 1) % ks0.length = (m % ks0.length + 1) % ks0.length := by
        conv_lhs => rw [show m + 1 = m % ks0.length + 1 + ks0.length * (m / ks0.length) by
          have := Nat.div_add_mod m ks0.length
          omega]
        exact Nat.add_mul_mod_self_left _ _ _
      rw [hmod]
      rcases Nat.lt_or_ge (m % ks0.length + 1) ks0.length with hlt | hge
      · rw [Nat.mod_eq_of_lt hlt]
      · have heq : m % ks0.length + 1 = ks0.length := by omega
        rw [heq, Nat.mod_self, cycleKeys_wrap]

theorem selAt_cycle (ks0 : List KeyRec) (w : ℚ) (s0 : KMState) (τ : Nat → ℚ)
    (hw : 0 < w) (hn : 0 < ks0.length) (hpool : EqualPool ks0 w)
    (hcw : ∀ k ∈ ks0, k.currentWeight = 0) (hkeys : s0.keys = ks0) (m : Nat) :
    selAt τ s0 m = (ks0.get? (m % ks0.length)).map (fun k => k.key) := by
  have h := runSel_keys_cycle ks0 w s0 τ hw hn hpool hcw hkeys m
  have hstep := selectKey_cycle ks0 w (m % ks0.length) (τ m) (runSel τ s0 m)
    hw hn (Nat.mod_lt _ hn) hpool h
  unfold selAt
  rw [hstep]

/-- C4: on an equal-weight pool of N ≥ 2 records with no intervening errors
or recoveries, within the first 1000 selectKey calls every window of N
consecutive selections contains every credential of the pool. -/
theorem swrr_no_starvation (ks0 : List KeyRec) (w : ℚ) (s0 : KMState) (τ : Nat → ℚ)
    (hw : 0 < w) (hn2 : 2 ≤ ks0.length) (hpool : EqualPool ks0 w)
    (hcw : ∀ k ∈ ks0, k.currentWeight = 0) (hkeys : s0.keys = ks0)
    (m j : Nat) (hm : m + ks0.length ≤ 1000) (hj : j < ks0.length) :
    ∃ t, m ≤ t ∧ t < m + ks0.length ∧ t < 1000 ∧
      selAt τ s0 t = (ks0.get? j).map (fun k => k.key) := by
  have hn : 0 < ks0.length := by omega
  have hdm := Nat.div_add_mod m ks0.length
  have hrem : m % ks0.length < ks0.length := Nat.mod_lt _ hn
  rcases Nat.lt_or_ge j (m % ks0.length) with hcase | hcase
  · refine ⟨ks0.length * (m / ks0.length) + ks0.length + j, by omega, by omega, by omega, ?_⟩
    have hmodt : (ks0.length * (m / ks0.length) + ks0.length + j) % ks0.length = j := by
      rw [show ks0.length * (m / ks0.length) + ks0.length + j =
        ks0.length * (m / ks0.length + 1) + j by ring, Nat.mul_add_mod]
      exact Nat.mod_eq_of_lt hj
    rw [selAt_cycle ks0 w s0 τ hw hn hpool hcw hkeys, hmodt]
  · refine ⟨ks0.length * (m / ks0.length) + j, by omega, by omega, by omega, ?_⟩
    have hmodt : (ks0.length * (m / ks0.length) + j) % ks0.length = j := by
      rw [Nat.mul_add_mod]
      exact Nat.mod_eq_of_lt hj
    rw [selAt_cycle ks0 w s0 τ hw hn hpool hcw hkeys, hmodt]

/-- Witness for C4 on the pool "a,b": in the window of 2 selections starting
at call 0, credential "b" is produced. -/
theorem swrr_no_starvation_witness :
    ∃ t, 0 ≤ t ∧ t < 0 + (initState "a,b" 0).keys.length ∧ t < 1000 ∧
      selAt (fun _ => 7) (initState "a,b" 0) t =
        ((initState "a,b" 0).keys.get? 1).map (fun k => k.key) := by
  refine swrr_no_starvation (initState "a,b" 0).keys 1 (initState "a,b" 0) (fun _ => 7)
    (by norm_num) (by decide) ?_ (by decide) rfl 0 1 (by decide) (by decide)
  intro k hk
  fin_cases hk <;> refine ⟨by decide, by decide, by decide⟩

end GBE
